import Mathlib

/-!
# Verification of the JenaAI-VTuber dynamic module system

Shallow embedding of the module registry / lifecycle orchestrator of
`src/services/moduleSystem.js`, the state-persistence service of
`src/services/moduleStatePersistence.js`, and the WebSocket module server
(`ModuleWebSocketServer`).

Modelling conventions:
* JS `Map`s are insertion-ordered association lists (`set` updates in place,
  new keys are appended); JS `Set`s are insertion-ordered duplicate-free lists.
* Lifecycle hooks (`init`, `destroy`, `update`) are arbitrary async JS
  functions; their observable behaviour here is (a) the fact that they were
  invoked, recorded in an event trace, and (b) whether the invocation
  succeeds or throws, modelled by a `Bool` stored in the descriptor
  (`true` = the hook returns normally).  After `registerModule` every module
  has all three hooks (absent ones default to a succeeding no-op), so the JS
  truthiness guards `if (module.init)` etc. are always taken.
* JS exceptions are an `Except` error component; since an exception does not
  roll back mutations already performed, every operation returns the state
  it leaves behind together with the `Except` outcome and the trace of hook
  invocations / event emissions.
* The unbounded JS recursions (`checkCircular`, the DFS `visit` of
  `getDependencyOrder`, and the mutual `loadModule`/`checkDependencies`
  recursion) take an explicit fuel parameter; running out of fuel is the
  distinguished error `Err.fuel`, which the real program (whose recursion is
  unbounded) never produces — every theorem below is insensitive to the
  chosen fuel or quantifies over it.
-/

deriving instance DecidableEq for Except

namespace ModuleSystem

/-- Insertion-ordered association-list lookup, `Map.prototype.get`
(keys are unique, so first-match lookup is exact). -/
def mapGet (k : String) : List (String × α) → Option α
  | [] => none
  | p :: t => if p.1 = k then some p.2 else mapGet k t

/-- `Map.prototype.set`: update in place if the key exists, else append
(JS maps keep insertion order on update). -/
def mapSet (k : String) (v : α) : List (String × α) → List (String × α)
  | [] => [(k, v)]
  | p :: t => if p.1 = k then (k, v) :: t else p :: mapSet k v t

/-- `Map.prototype.delete`. -/
def mapDelete (k : String) : List (String × α) → List (String × α)
  | [] => []
  | p :: t => if p.1 = k then t else p :: mapDelete k t

/-- `Set.prototype.add`: append if absent (JS sets keep insertion order). -/
def setAdd (x : String) (s : List String) : List String :=
  if s.contains x then s else s ++ [x]

/-- `Set.prototype.delete`. -/
def setDelete (x : String) (s : List String) : List String :=
  s.filter (fun y => y != x)

/-- A registered module descriptor, as built by `registerModule`
(`moduleSystem.js` lines 79-91).  `exports` and `config` are free-form
objects, modelled as opaque association lists.  `name`/`version` may be
`undefined` in JS (the config fields are read without defaults), hence
`Option`. -/
structure Module where
  id : String
  name : Option String
  version : Option String
  dependencies : List String
  exports : List (String × String)
  initHook : Bool
  destroyHook : Bool
  updateHook : Bool
  config : List (String × String)
  state : String
  lastUpdated : Nat
  deriving DecidableEq

/-- A module configuration object as passed to `registerModule` /
`hotSwapModule`.  Every field is optional (absent fields take the JS
defaults at registration; `Object.assign` copies only present fields at
hot-swap).  `id` and `state` appear because a hot-swap fragment is an
arbitrary object merged wholesale by `Object.assign`. -/
structure ModuleConfig where
  id : Option String := none
  name : Option String := none
  version : Option String := none
  dependencies : Option (List String) := none
  exports : Option (List (String × String)) := none
  initHook : Option Bool := none
  destroyHook : Option Bool := none
  updateHook : Option Bool := none
  config : Option (List (String × String)) := none
  state : Option String := none
  lastUpdated : Option Nat := none

/-- The mutable state of a `ModuleSystem` instance: `this.modules`,
`this.moduleStates` and `this.loadedModules` (the WebSocket handle and
event-listener table carry no lifecycle state and are not modelled). -/
structure Sys where
  modules : List (String × Module)
  moduleStates : List (String × String)
  loadedModules : List String
  deriving DecidableEq

def emptySys : Sys := ⟨[], [], []⟩

/-- Observable events: lifecycle hook invocations and `emit` calls. -/
inductive Ev where
  | initHook (id : String)
  | destroyHook (id : String)
  | updateHook (id : String) (old merged : Module)
  | moduleLoaded (id : String)
  | moduleUnloaded (id : String)
  | moduleUpdated (id : String) (old merged : Module)
  | systemRestart
  deriving DecidableEq

/-- Errors thrown by the module system.  The JS code throws plain `Error`s
with distinguishing messages; the constructors record which `throw` site
fired (`notFound` = "Module X not found", `circular` = "Circular dependency
detected", `dependentsExist` = "Cannot unload X: ... depend on it",
`notLoaded` = "Module X not loaded" — the spec's `InvalidStateError`,
`hookFailure` = an exception thrown by a lifecycle hook).  `fuel` is the
artificial out-of-fuel outcome of the embedding. -/
inductive Err where
  | notFound (id : String)
  | circular (id : String)
  | dependentsExist (id : String) (deps : List String)
  | notLoaded (id : String)
  | hookFailure (id : String)
  | fuel
  deriving DecidableEq

/-- `registerModule` (lines 78-98): builds the descriptor with defaults and
unconditionally stores it; no validation of any kind is performed. -/
def registerModule (now : Nat) (moduleId : String) (cfg : ModuleConfig)
    (s : Sys) : Module × Sys :=
  let m : Module :=
    { id := moduleId
      name := cfg.name
      version := cfg.version
      dependencies := cfg.dependencies.getD []
      exports := cfg.exports.getD []
      initHook := cfg.initHook.getD true
      destroyHook := cfg.destroyHook.getD true
      updateHook := cfg.updateHook.getD true
      config := cfg.config.getD []
      state := "registered"
      lastUpdated := now }
  (m, { s with modules := mapSet moduleId m s.modules
               moduleStates := mapSet moduleId "registered" s.moduleStates })

/-- `getDependents` (lines 280-288): every registered module (loaded or not)
whose dependency list contains `moduleId`, in registry order. -/
def getDependents (moduleId : String) (s : Sys) : List String :=
  ((s.modules.filter (fun p => p.2.dependencies.contains moduleId)).map (·.1))

/-- State of the `checkCircular` closure (lines 213-214): the shared
`visited` and `visiting` sets. -/
structure CCState where
  visited : List String
  visiting : List String

mutual
/-- `checkCircular(currentId, targetId)` (lines 216-234). -/
def checkCircular (g : List (String × Module)) :
    Nat → String → String → CCState → Except Err CCState
  | 0, _, _, _ => .error .fuel
  | fuel+1, currentId, targetId, st =>
    if st.visiting.contains currentId then .error (.circular currentId)
    else if st.visited.contains currentId then .ok st
    else
      let st1 : CCState := { st with visiting := setAdd currentId st.visiting }
      match mapGet currentId g with
      | some m =>
        match checkCircularList g fuel m.dependencies targetId st1 with
        | .error e => .error e
        | .ok st2 =>
          .ok { visited := setAdd currentId st2.visited
                visiting := setDelete currentId st2.visiting }
      | none =>
        .ok { visited := setAdd currentId st1.visited
              visiting := setDelete currentId st1.visiting }

/-- The `for (const depId of currentModule.dependencies)` loop inside
`checkCircular`: each dependency equal to `targetId` is a cycle, otherwise
recurse. -/
def checkCircularList (g : List (String × Module)) :
    Nat → List String → String → CCState → Except Err CCState
  | _, [], _, st => .ok st
  | fuel, depId :: rest, targetId, st =>
    if depId == targetId then .error (.circular depId)
    else
      match checkCircular g fuel depId targetId st with
      | .error e => .error e
      | .ok st' => checkCircularList g fuel rest targetId st'
end

/-- State of the DFS in `getDependencyOrder` (lines 251-253). -/
structure DfsState where
  visited : List String
  visiting : List String
  order : List String

mutual
/-- The `visit` closure of `getDependencyOrder` (lines 255-273):
depth-first postorder push of `depId`. -/
def visit (g : List (String × Module)) :
    Nat → String → DfsState → Except Err DfsState
  | 0, _, _ => .error .fuel
  | fuel+1, depId, st =>
    if st.visiting.contains depId then .error (.circular depId)
    else if st.visited.contains depId then .ok st
    else
      let st1 : DfsState := { st with visiting := setAdd depId st.visiting }
      match
        (match mapGet depId g with
         | some m => visitList g fuel m.dependencies st1
         | none => .ok st1) with
      | .error e => .error e
      | .ok st2 =>
        .ok { visiting := setDelete depId st2.visiting
              visited := setAdd depId st2.visited
              order := st2.order ++ [depId] }

/-- `for (const subDepId of depModule.dependencies) visit(subDepId)`. -/
def visitList (g : List (String × Module)) :
    Nat → List String → DfsState → Except Err DfsState
  | _, [], st => .ok st
  | fuel, d :: ds, st =>
    match visit g fuel d st with
    | .error e => .error e
    | .ok st' => visitList g fuel ds st'
end

/-- `getDependencyOrder(dependencies)` (lines 250-277): DFS postorder over
the transitive closure of the given dependency list. -/
def getDependencyOrder (g : List (String × Module)) (fuel : Nat)
    (dependencies : List String) : Except Err (List String) :=
  match visitList g fuel dependencies ⟨[], [], []⟩ with
  | .error e => .error e
  | .ok st => .ok st.order

mutual
/-- `loadModule` (lines 101-134).  Returns the JS return value, the state
left behind (JS exceptions do not roll back mutations) and the trace of
hook invocations and emitted events. -/
def loadModule : Nat → String → Sys → Except Err Module × Sys × List Ev
  | 0, _, s => (.error .fuel, s, [])
  | fuel+1, moduleId, s =>
    match mapGet moduleId s.modules with
    | none => (.error (.notFound moduleId), s, [])
    | some m =>
      if s.loadedModules.contains moduleId then (.ok m, s, [])
      else
        match checkDependencies fuel moduleId s with
        | (.error e, s1, tr1) => (.error e, s1, tr1)
        | (.ok _, s1, tr1) =>
          -- `await module.init(options)`; the hook is always present after
          -- registration, so `if (module.init)` is taken.
          if m.initHook then
            let m2 : Module := { m with state := "loaded" }
            (.ok m2,
             { s1 with loadedModules := setAdd moduleId s1.loadedModules
                       moduleStates := mapSet moduleId "loaded" s1.moduleStates
                       modules := mapSet moduleId m2 s1.modules },
             tr1 ++ [.initHook moduleId, .moduleLoaded moduleId])
          else
            (.error (.hookFailure moduleId), s1, tr1 ++ [.initHook moduleId])
termination_by fuel _ _ => (fuel, 0)

/-- `checkDependencies` (lines 208-247): cycle check from `moduleId`, then
load the computed dependency order. -/
def checkDependencies : Nat → String → Sys → Except Err Unit × Sys × List Ev
  | 0, _, s => (.error .fuel, s, [])
  | fuel+1, moduleId, s =>
    match mapGet moduleId s.modules with
    | none => (.ok (), s, [])
    | some m =>
      match checkCircular s.modules (fuel+1) moduleId moduleId ⟨[], []⟩ with
      | .error e => (.error e, s, [])
      | .ok _ =>
        match getDependencyOrder s.modules (fuel+1) m.dependencies with
        | .error e => (.error e, s, [])
        | .ok order => loadList fuel order s
termination_by fuel _ _ => (fuel, 1)

/-- `for (const depId of dependencyOrder) if (!loaded) await loadModule`. -/
def loadList : Nat → List String → Sys → Except Err Unit × Sys × List Ev
  | _, [], s => (.ok (), s, [])
  | fuel, d :: ds, s =>
    if s.loadedModules.contains d then loadList fuel ds s
    else
      match loadModule fuel d s with
      | (.error e, s', tr) => (.error e, s', tr)
      | (.ok _, s', tr) =>
        match loadList fuel ds s' with
        | (r, s'', tr') => (r, s'', tr ++ tr')
termination_by fuel ds _ => (fuel, ds.length + 2)
end

/-- `unloadModule` (lines 137-172). -/
def unloadModule (moduleId : String) (s : Sys) :
    Except Err Unit × Sys × List Ev :=
  match mapGet moduleId s.modules with
  | none => (.error (.notFound moduleId), s, [])
  | some m =>
    if ¬ s.loadedModules.contains moduleId then (.ok (), s, [])
    else
      let dependents := getDependents moduleId s
      if dependents.isEmpty then
        -- `await module.destroy()`
        if m.destroyHook then
          let m2 : Module := { m with state := "unloaded" }
          (.ok (),
           { s with loadedModules := setDelete moduleId s.loadedModules
                    moduleStates := mapSet moduleId "unloaded" s.moduleStates
                    modules := mapSet moduleId m2 s.modules },
           [.destroyHook moduleId, .moduleUnloaded moduleId])
        else
          (.error (.hookFailure moduleId), s, [.destroyHook moduleId])
      else
        (.error (.dependentsExist moduleId dependents), s, [])

/-- `Object.assign(module, newModuleConfig)`: overwrite exactly the fields
present in the fragment. -/
def objectAssign (m : Module) (c : ModuleConfig) : Module :=
  { id := c.id.getD m.id
    name := match c.name with | some v => some v | none => m.name
    version := match c.version with | some v => some v | none => m.version
    dependencies := c.dependencies.getD m.dependencies
    exports := c.exports.getD m.exports
    initHook := c.initHook.getD m.initHook
    destroyHook := c.destroyHook.getD m.destroyHook
    updateHook := c.updateHook.getD m.updateHook
    config := c.config.getD m.config
    state := c.state.getD m.state
    lastUpdated := c.lastUpdated.getD m.lastUpdated }

/-- `hotSwapModule` (lines 175-205). -/
def hotSwapModule (now : Nat) (moduleId : String) (cfg : ModuleConfig)
    (s : Sys) : Except Err Module × Sys × List Ev :=
  match mapGet moduleId s.modules with
  | none => (.error (.notFound moduleId), s, [])
  | some m =>
    if ¬ s.loadedModules.contains moduleId then
      (.error (.notLoaded moduleId), s, [])
    else
      let oldModule := m                    -- `const oldModule = {...module}`
      let merged : Module := { objectAssign m cfg with lastUpdated := now }
      let s1 : Sys := { s with modules := mapSet moduleId merged s.modules }
      -- `await module.update(oldModule, module)` on the merged object
      if merged.updateHook then
        (.ok merged, s1,
         [.updateHook moduleId oldModule merged,
          .moduleUpdated moduleId oldModule merged])
      else
        (.error (.hookFailure moduleId), s1,
         [.updateHook moduleId oldModule merged])

/-- The `for (const moduleId of this.loadedModules)` loop of
`restartSystem` (lines 398-404): try to unload each, swallowing errors.
`unloadModule d` removes at most `d` itself from the loaded set, so
iterating the initial insertion-ordered list matches JS set iteration. -/
def unloadAll : List String → Sys → Sys × List Ev
  | [], s => (s, [])
  | d :: ds, s =>
    match unloadModule d s with
    | (_, s', tr) =>
      match unloadAll ds s' with
      | (s'', tr') => (s'', tr ++ tr')

/-- `restartSystem` (lines 394-415): best-effort unload pass in loaded-set
insertion order, then clear all three collections, then emit
`systemRestart`. -/
def restartSystem (s : Sys) : Sys × List Ev :=
  match unloadAll s.loadedModules s with
  | (_, tr) => (emptySys, tr ++ [.systemRestart])

/-- `handleModuleUninstall` (lines 341-346): unload, then (only if the
unload did not throw) delete the descriptor and its state entry. -/
def handleModuleUninstall (moduleId : String) (s : Sys) :
    Except Err Unit × Sys × List Ev :=
  match unloadModule moduleId s with
  | (.error e, s', tr) => (.error e, s', tr)
  | (.ok _, s', tr) =>
    (.ok (), { s' with modules := mapDelete moduleId s'.modules
                       moduleStates := mapDelete moduleId s'.moduleStates },
     tr)

/-- `handleModuleReload` (lines 349-364). -/
def handleModuleReload (fuel now : Nat) (moduleId : String)
    (cfg : ModuleConfig) (s : Sys) : Except Err Unit × Sys × List Ev :=
  let wasLoaded := s.loadedModules.contains moduleId
  match (if wasLoaded then unloadModule moduleId s else (.ok (), s, [])) with
  | (.error e, s', tr) => (.error e, s', tr)
  | (.ok _, s', tr) =>
    let (_, s2) := registerModule now moduleId cfg s'
    if wasLoaded then
      match loadModule fuel moduleId s2 with
      | (.error e, s3, tr') => (.error e, s3, tr ++ tr')
      | (.ok _, s3, tr') => (.ok (), s3, tr ++ tr')
    else
      (.ok (), s2, tr)

end ModuleSystem

namespace Persistence

/-! ## `ModuleStatePersistence` (`moduleStatePersistence.js`)

The IndexedDB stores are modelled as pure data: `moduleStates` is the keyed
store (keyPath `moduleId`), `stateHistory` the append-only store with an
auto-increment primary key.  Only happy-path IndexedDB semantics are
modelled (a successful `put`/`add`/`get`); the claims under verification
presuppose the save succeeded. -/

/-- A JSON-serializable value (the integral-number fragment; floats carry no
arithmetic here).  `saveModuleState` deep-clones the state via
`JSON.parse(JSON.stringify(state))`, which is the identity on such values
(`deepClone_eq` below). -/
inductive Json where
  | null
  | bool (b : Bool)
  | num (n : Int)
  | str (s : String)
  | arr (xs : List Json)
  | obj (fields : List (String × Json))

mutual
/-- `JSON.parse(JSON.stringify(state))` on a JSON-serializable value:
a structural deep copy. -/
def deepClone : Json → Json
  | .null => .null
  | .bool b => .bool b
  | .num n => .num n
  | .str s => .str s
  | .arr xs => .arr (deepCloneList xs)
  | .obj fs => .obj (deepCloneFields fs)

def deepCloneList : List Json → List Json
  | [] => []
  | j :: js => deepClone j :: deepCloneList js

def deepCloneFields : List (String × Json) → List (String × Json)
  | [] => []
  | (k, j) :: fs => (k, deepClone j) :: deepCloneFields fs
end

/-- The record written to both stores by `saveModuleState` (lines 64-70). -/
structure StateRecord where
  moduleId : String
  state : Json
  timestamp : Nat
  version : String
  metadata : List (String × Json)

/-- An entry of the `stateHistory` store (auto-increment key `id`). -/
structure HistoryEntry where
  id : Nat
  moduleId : String
  state : Json
  timestamp : Nat
  version : String
  metadata : List (String × Json)

/-- Options bag of `saveModuleState`. -/
structure SaveOptions where
  version : Option String := none
  metadata : Option (List (String × Json)) := none

/-- The persistence database: `dbInit` models `this.db` being non-null. -/
structure PStore where
  dbInit : Bool
  moduleStates : List (String × StateRecord)
  stateHistory : List HistoryEntry
  nextHistoryId : Nat

inductive PErr where
  | dbNotInitialized

/-- `saveModuleState(moduleId, state, options)` (lines 59-98): deep-clone the
state, upsert the current record (`put`), append one history entry (`add`),
resolve with the stored record. -/
def saveModuleState (now : Nat) (moduleId : String) (state : Json)
    (options : SaveOptions) (p : PStore) :
    Except PErr (StateRecord × PStore) :=
  if ¬ p.dbInit then .error .dbNotInitialized
  else
    let record : StateRecord :=
      { moduleId := moduleId
        state := deepClone state
        timestamp := now
        version := (options.version.getD "1.0.0")
        metadata := options.metadata.getD [] }
    let entry : HistoryEntry :=
      { id := p.nextHistoryId
        moduleId := moduleId
        state := record.state
        timestamp := record.timestamp
        version := record.version
        metadata := record.metadata }
    .ok (record,
      { p with moduleStates := ModuleSystem.mapSet moduleId record p.moduleStates
               stateHistory := p.stateHistory ++ [entry]
               nextHistoryId := p.nextHistoryId + 1 })

/-- `loadModuleState(moduleId, version)` (lines 103-129): `get` the current
record; `null` if absent; `null` on a version mismatch when a (truthy)
version filter is given. -/
def loadModuleState (moduleId : String) (version : Option String)
    (p : PStore) : Except PErr (Option Json) :=
  if ¬ p.dbInit then .error .dbNotInitialized
  else
    match ModuleSystem.mapGet moduleId p.moduleStates with
    | none => .ok none
    | some r =>
      match version with
      | some v =>
        -- `if (version && result.version !== version)`: `""` is falsy in JS
        if ¬ v.isEmpty ∧ r.version ≠ v then .ok none else .ok (some r.state)
      | none => .ok (some r.state)

/-- The history entries stored for `moduleId` (what the `moduleId` index of
the `stateHistory` store holds). -/
def historyEntriesFor (moduleId : String) (p : PStore) : List HistoryEntry :=
  p.stateHistory.filter (fun e => e.moduleId == moduleId)

/-- `getModuleStateHistory(moduleId, limit)` (lines 159-179): all history
entries for `moduleId`, most recent first, capped at `limit`. -/
def getModuleStateHistory (moduleId : String) (limit : Nat) (p : PStore) :
    Except PErr (List HistoryEntry) :=
  if ¬ p.dbInit then .error .dbNotInitialized
  else
    .ok ((((historyEntriesFor moduleId p).mergeSort
        (fun a b => b.timestamp ≤ a.timestamp)).take limit))

end Persistence

namespace WSServer

/-! ## `ModuleWebSocketServer` (`src/unnamed/part_003`)

The per-connection `ws.on('message')` callback (lines 42-50) is `onFrame`
below: a frame that fails `JSON.parse` is modelled as `none`, a parsed
envelope as `some msg`.  Outbound traffic is a list of
`(targetClientId, payload)` pairs; `sendMessage` drops the frame when the
target socket is not OPEN. -/

open ModuleSystem (mapGet mapSet mapDelete)

/-- A module configuration object of the server.  Truthy-string checks model
JS truthiness (`""` and absent are falsy); `initIsFn` models
`typeof config.init === 'function'`. -/
structure WSConfig where
  id : Option String := none
  name : Option String := none
  version : Option String := none
  initIsFn : Option Bool := none
  dependencies : Option (List String) := none
  filePath : Option String := none

def truthy : Option String → Bool
  | some s => ¬ s.isEmpty
  | none => false

/-- A registry entry: `{...moduleConfig, installedAt, source}` at install,
plus `lastUpdated` after an update. -/
structure WSModule where
  config : WSConfig
  installedAt : Option Nat := none
  source : Option String := none
  lastUpdated : Option Nat := none

/-- `{...existingModule, ...moduleConfig}`: overwrite the fields present in
the incoming config. -/
def wsAssign (a b : WSConfig) : WSConfig :=
  { id := match b.id with | some v => some v | none => a.id
    name := match b.name with | some v => some v | none => a.name
    version := match b.version with | some v => some v | none => a.version
    initIsFn := match b.initIsFn with | some v => some v | none => a.initIsFn
    dependencies := match b.dependencies with | some v => some v | none => a.dependencies
    filePath := match b.filePath with | some v => some v | none => a.filePath }

structure SystemStatus where
  running : Bool
  modulesLoaded : Nat
  lastUpdate : Nat

/-- A connected peer: `{ws, id, type, lastPing}` (+ `registered` after a
register message).  `isOpen` is `ws.readyState === WebSocket.OPEN`. -/
structure Client where
  ctype : String
  lastPing : Nat
  registered : Bool
  isOpen : Bool
  deriving DecidableEq

structure Server where
  clients : List (String × Client)
  moduleRegistry : List (String × WSModule)
  moduleFiles : List (String × String)
  systemStatus : SystemStatus

/-- An action produced by `processAICommand`. -/
inductive AIAction where
  | installModule (moduleId : String) (config : WSConfig)
  | updateModule (moduleId : String) (config : WSConfig)
  | restartSys

/-- Outbound envelopes (`{type, data}`), one constructor per `type`. -/
inductive OutMsg where
  | welcome (clientId : String) (serverTime : Nat)
  | registered (clientId : String) (status : SystemStatus)
  | errorMsg (error : String) (timestamp : Nat)
  | moduleInstalled (moduleId : String) (success : Bool)
  | moduleList (modules : List (String × WSModule)) (status : SystemStatus)
  | systemStatusReply (status : SystemStatus)
  | moduleInstallB (moduleId : String) (cfg : WSConfig) (installedBy : String)
  | moduleUpdateB (moduleId : String) (merged : WSModule) (action : Option String)
      (updatedBy : String)
  | moduleUninstallB (moduleId : String) (uninstalledBy : String)
  | moduleReloadB (moduleId : String) (reloadedBy : String)
  | systemRestartB (timestamp : Option Nat) (restartedBy : Option String)
  | aiExecuted (command : String) (actions : List AIAction) (executedBy : String)
  | pong

/-- Inbound envelopes after a successful `JSON.parse`, one constructor per
`message.type` the switch at lines 86-113 distinguishes.  `register` reads
`message.clientType` (top level); the others read `message.data`. -/
inductive Msg where
  | register (clientType : Option String)
  | moduleInstall (moduleId : String) (moduleConfig : WSConfig) (source : Option String)
  | moduleUpdate (moduleId : String) (moduleConfig : WSConfig) (action : Option String)
  | moduleUninstall (moduleId : String)
  | moduleReload (moduleId : String)
  | systemCommand (command : String) (argsCommand : Option String)
      (argsContext : Option String)
  | aiCommand (command : String) (context : Option String) (priority : Option String)
  | ping
  | other (t : String)

/-- `sendMessage(ws, msg)` to the socket of client `cid`: emitted only when
the socket is OPEN. -/
def sendTo (s : Server) (cid : String) (msg : OutMsg) :
    List (String × OutMsg) :=
  match mapGet cid s.clients with
  | some c => if c.isOpen then [(cid, msg)] else []
  | none => []

/-- `sendError(ws, error)` (lines 487-492): an `error` envelope with the
text and `Date.now()`. -/
def sendError (s : Server) (cid : String) (errText : String) (now : Nat) :
    List (String × OutMsg) :=
  sendTo s cid (.errorMsg errText now)

/-- `broadcast(message)` (lines 494-498): send to every connected client. -/
def broadcast (s : Server) (msg : OutMsg) : List (String × OutMsg) :=
  (s.clients.filter (fun p => p.2.isOpen)).map (fun p => (p.1, msg))

/-- `validateModuleConfig` (lines 411-417). -/
def validateModuleConfig (c : WSConfig) : Bool :=
  truthy c.id && truthy c.name && truthy c.version && c.initIsFn.getD false

/-- `handleClientRegister` (lines 116-127). -/
def handleClientRegister (cid : String) (clientType : Option String)
    (s : Server) : Server × List (String × OutMsg) :=
  match mapGet cid s.clients with
  | none => (s, [])
  | some c =>
    let c' : Client := { c with ctype := clientType.getD "unknown"
                                registered := true }
    let s' : Server := { s with clients := mapSet cid c' s.clients }
    (s', sendTo s' cid (.registered cid s'.systemStatus))

/-- `handleModuleInstall` (lines 129-167).  A failed validation is the only
modelled throw; the success reply to an absent caller (the `'ai'`
pseudo-client of `executeAction`) is dropped where the JS would raise a
`TypeError` reading `.ws` of `undefined` — no claim exercises that path. -/
def handleModuleInstall (now : Nat) (cid : String) (moduleId : String)
    (cfg : WSConfig) (source : Option String) (s : Server) :
    Server × List (String × OutMsg) :=
  if ¬ validateModuleConfig cfg then
    (s, sendError s cid
      "Failed to install module: Invalid module configuration" now)
  else
    let entry : WSModule :=
      { config := cfg
        installedAt := some now
        source := some (source.getD "websocket") }
    let files :=
      if source == some "file" && (cfg.filePath.getD "").length != 0 then
        mapSet moduleId (cfg.filePath.getD "") s.moduleFiles
      else s.moduleFiles
    let s' : Server := { s with moduleRegistry := mapSet moduleId entry s.moduleRegistry
                                moduleFiles := files }
    (s', broadcast s' (.moduleInstallB moduleId cfg cid)
          ++ sendTo s' cid (.moduleInstalled moduleId true))

/-- `handleModuleUpdate` (lines 169-199). -/
def handleModuleUpdate (now : Nat) (cid : String) (moduleId : String)
    (cfg : WSConfig) (action : Option String) (s : Server) :
    Server × List (String × OutMsg) :=
  match mapGet moduleId s.moduleRegistry with
  | none =>
    (s, sendError s cid
      ("Failed to update module: Module " ++ moduleId ++ " not found") now)
  | some existing =>
    let updated : WSModule :=
      { existing with config := wsAssign existing.config cfg
                      lastUpdated := some now }
    let s' : Server :=
      { s with moduleRegistry := mapSet moduleId updated s.moduleRegistry }
    (s', broadcast s' (.moduleUpdateB moduleId updated action cid))

/-- `handleModuleUninstall` (lines 201-229). -/
def handleModuleUninstallW (now : Nat) (cid : String) (moduleId : String)
    (s : Server) : Server × List (String × OutMsg) :=
  match mapGet moduleId s.moduleRegistry with
  | none =>
    (s, sendError s cid
      ("Failed to uninstall module: Module " ++ moduleId ++ " not found") now)
  | some _ =>
    let s' : Server :=
      { s with moduleRegistry := mapDelete moduleId s.moduleRegistry
               moduleFiles := mapDelete moduleId s.moduleFiles }
    (s', broadcast s' (.moduleUninstallB moduleId cid))

/-- `handleModuleReload` (lines 231-251): only a broadcast. -/
def handleModuleReloadW (now : Nat) (cid : String) (moduleId : String)
    (s : Server) : Server × List (String × OutMsg) :=
  match mapGet moduleId s.moduleRegistry with
  | none =>
    (s, sendError s cid
      ("Failed to reload module: Module " ++ moduleId ++ " not found") now)
  | some _ => (s, broadcast s (.moduleReloadB moduleId cid))

/-- `restartSystem` (lines 459-479).  The `setTimeout` that flips
`running` back to `true` one second later is a deferred timer outside this
sequential model. -/
def restartSystemW (now : Nat) (s : Server) : Server × List (String × OutMsg) :=
  let s' : Server :=
    { s with systemStatus := { s.systemStatus with running := false
                                                   lastUpdate := now }
             moduleRegistry := []
             moduleFiles := [] }
  (s', broadcast s' (.systemRestartB (some now) none))

/-- `handleSystemCommand` (lines 253-297). -/
def handleSystemCommand (now : Nat) (cid : String) (command : String)
    (s : Server) : Server × List (String × OutMsg) :=
  if command == "list_modules" then
    (s, sendTo s cid (.moduleList s.moduleRegistry s.systemStatus))
  else if command == "get_system_status" then
    (s, sendTo s cid (.systemStatusReply s.systemStatus))
  else if command == "restart_system" then
    match restartSystemW now s with
    | (s', out) => (s', out ++ broadcast s' (.systemRestartB none (some cid)))
  else if command == "execute_ai_command" then
    -- `executeAICommand` only logs and returns a literal
    (s, [])
  else
    (s, sendError s cid
      ("System command failed: Unknown system command: " ++ command) now)

/-- `command.includes(sub)`. -/
def containsSub (s sub : String) : Bool :=
  decide (sub.toList <:+: s.toList)

/-- Token scan behind `aiMatch`: look for `verb module <word>` among
whitespace-separated tokens. -/
def aiMatchTokens (verb : String) : List String → Option String
  | v :: rest =>
    match rest with
    | m :: w :: _ =>
      if v.toLower == verb && m.toLower == "module" then
        let captured := w.takeWhile (fun ch => ch.isAlphanum || ch == '_')
        if captured.isEmpty then none else some captured
      else aiMatchTokens verb rest
    | _ => none
  | [] => none

/-- The capture of `/install\s+module\s+(\w+)/i` (resp. `update`): modelled
as a case-insensitive whitespace-token scan for `verb module <word>`; the
captured group is the leading word-character run.  No claim depends on this
function. -/
def aiMatch (verb : String) (command : String) : Option String :=
  aiMatchTokens verb ((command.splitOn " ").filter (fun t => ¬ t.isEmpty))

/-- `processAICommand` (lines 325-362).  `generateModuleConfig` emits its
lifecycle hooks as code *strings*, so `typeof config.init === 'function'`
is false for these configs (`initIsFn := some false`); its free-form
`config: context` mapping has no observable effect here. -/
def processAICommand (command : String) (_context : Option String) :
    List AIAction :=
  let genCfg (moduleId : String) : WSConfig :=
    { id := some moduleId
      name := some moduleId.capitalize
      version := some "1.0.0"
      initIsFn := some false }
  let installs :=
    if containsSub command "install" && containsSub command "module" then
      match aiMatch "install" command with
      | some moduleId => [AIAction.installModule moduleId (genCfg moduleId)]
      | none => []
    else []
  let updates :=
    if containsSub command "update" && containsSub command "module" then
      match aiMatch "update" command with
      | some moduleId => [AIAction.updateModule moduleId (genCfg moduleId)]
      | none => []
    else []
  let restarts :=
    if containsSub command "restart" && containsSub command "system" then
      [AIAction.restartSys]
    else []
  installs ++ updates ++ restarts

/-- `executeAction` (lines 379-403): the pseudo caller id is `'ai'`. -/
def executeAction (now : Nat) (a : AIAction) (s : Server) :
    Server × List (String × OutMsg) :=
  match a with
  | .installModule moduleId cfg =>
    handleModuleInstall now "ai" moduleId cfg (some "ai") s
  | .updateModule moduleId cfg =>
    handleModuleUpdate now "ai" moduleId cfg (some "update") s
  | .restartSys => restartSystemW now s

def executeActions (now : Nat) : List AIAction → Server →
    Server × List (String × OutMsg)
  | [], s => (s, [])
  | a :: rest, s =>
    match executeAction now a s with
    | (s', out) =>
      match executeActions now rest s' with
      | (s'', out') => (s'', out ++ out')

/-- `handleAICommand` (lines 299-323). -/
def handleAICommand (now : Nat) (cid : String) (command : String)
    (context : Option String) (s : Server) :
    Server × List (String × OutMsg) :=
  let actions := processAICommand command context
  match executeActions now actions s with
  | (s', out) =>
    (s', out ++ broadcast s' (.aiExecuted command actions cid))

/-- `handlePing` (lines 451-457). -/
def handlePing (now : Nat) (cid : String) (s : Server) :
    Server × List (String × OutMsg) :=
  match mapGet cid s.clients with
  | none => (s, [])
  | some c =>
    let s' : Server :=
      { s with clients := mapSet cid { c with lastPing := now } s.clients }
    (s', sendTo s' cid .pong)

/-- `handleMessage` (lines 82-114): drop the message if the client is gone,
else dispatch on `message.type`. -/
def handleMessage (now : Nat) (cid : String) (m : Msg) (s : Server) :
    Server × List (String × OutMsg) :=
  match mapGet cid s.clients with
  | none => (s, [])
  | some _ =>
    match m with
    | .register clientType => handleClientRegister cid clientType s
    | .moduleInstall moduleId cfg source =>
      handleModuleInstall now cid moduleId cfg source s
    | .moduleUpdate moduleId cfg action =>
      handleModuleUpdate now cid moduleId cfg action s
    | .moduleUninstall moduleId => handleModuleUninstallW now cid moduleId s
    | .moduleReload moduleId => handleModuleReloadW now cid moduleId s
    | .systemCommand command _ _ => handleSystemCommand now cid command s
    | .aiCommand command context _ => handleAICommand now cid command context s
    | .ping => handlePing now cid s
    | .other _ => (s, [])

/-- The `ws.on('message')` callback (lines 42-50): `JSON.parse` then
dispatch; on a parse failure (`none`), reply `error` to this peer only. -/
def onFrame (now : Nat) (cid : String) (frame : Option Msg) (s : Server) :
    Server × List (String × OutMsg) :=
  match frame with
  | some m => handleMessage now cid m s
  | none => (s, sendError s cid "Invalid JSON message" now)

end WSServer

namespace ModuleSystem

/-! ## Derived notions used by the specification claims -/

/-- The dependency list the graph `g` records for `id` (empty when
unregistered, as in the traversals of the source). -/
def depsOf (g : List (String × Module)) (id : String) : List String :=
  match mapGet id g with
  | some m => m.dependencies
  | none => []

/-- `b` is transitively required by `a` (zero or more dependency edges). -/
def Reach (g : List (String × Module)) (a b : String) : Prop :=
  Relation.ReflTransGen (fun x y => y ∈ depsOf g x) a b

/-- Two system states present the same dependency graph: the same ids are
registered and with identical dependency lists. -/
def sameGraph (s s' : Sys) : Prop :=
  ∀ k, (mapGet k s.modules).map Module.dependencies
     = (mapGet k s'.modules).map Module.dependencies

/-- The dependency graph has no directed cycle. -/
def AcyclicGraph (g : List (String × Module)) : Prop :=
  ∀ a, ¬ Relation.TransGen (fun x y => y ∈ depsOf g x) a a

/-- A list is topologically sorted for `g`: every dependency of an element
occurs strictly before it. -/
def topoBefore (g : List (String × Module)) (order : List String) : Prop :=
  ∀ l1 a l2, order = l1 ++ a :: l2 → ∀ b ∈ depsOf g a, b ∈ l1

/-- Number of invocations of the `init` hook of `id` in a trace. -/
def countInit (id : String) (tr : List Ev) : Nat :=
  (tr.filter (fun e => match e with
    | .initHook j => j == id
    | _ => false)).length

/-- Number of invocations of the `update` hook of `id` in a trace. -/
def countUpdate (id : String) (tr : List Ev) : Nat :=
  (tr.filter (fun e => match e with
    | .updateHook j _ _ => j == id
    | _ => false)).length

/-- The basic registry invariant: a loaded module is always registered. -/
def Inv (s : Sys) : Prop :=
  ∀ id ∈ s.loadedModules, (mapGet id s.modules).isSome

/-- Some registered module lists `id` among its dependencies (the condition
`getDependents` actually checks — load status of the dependent is ignored). -/
def HasRegisteredDependent (id : String) (s : Sys) : Prop :=
  ∃ p ∈ s.modules, id ∈ p.2.dependencies

instance (id : String) (s : Sys) : Decidable (HasRegisteredDependent id s) := by
  unfold HasRegisteredDependent
  infer_instance

instance (s : Sys) : Decidable (Inv s) := by
  unfold Inv
  infer_instance

/-- A module configuration with only a dependency list, as in the spec's
scenarios. -/
def cfgDeps (ds : List String) : ModuleConfig := { dependencies := some ds }

/-- Fixture module `"a"`, no dependencies, in the Loaded state (the
descriptor `loadModule` leaves behind after loading a freshly registered
`"a"`). -/
def mA : Module :=
  { id := "a", name := none, version := none, dependencies := [],
    exports := [], initHook := true, destroyHook := true, updateHook := true,
    config := [], state := "loaded", lastUpdated := 0 }

/-- Fixture module `"b"` depending on `"a"`, still only Registered. -/
def mBreg : Module :=
  { id := "b", name := none, version := none, dependencies := ["a"],
    exports := [], initHook := true, destroyHook := true, updateHook := true,
    config := [], state := "registered", lastUpdated := 0 }

/-- Fixture: a single module `"a"` (no dependencies), loaded. -/
def sLoadedA : Sys := ⟨[("a", mA)], [("a", "loaded")], ["a"]⟩

/-- Fixture: `"a"` loaded, `"b"` registered but never loaded, depending on
`"a"`. -/
def sC4fix : Sys :=
  ⟨[("a", mA), ("b", mBreg)], [("a", "loaded"), ("b", "registered")], ["a"]⟩

/-- Fixture: `"a"` loaded, then `"b"` (depending on `"a"`) loaded, so the
loaded set is `["a", "b"]` in insertion order. -/
def sC6fix : Sys :=
  ⟨[("a", mA), ("b", { mBreg with state := "loaded" })],
   [("a", "loaded"), ("b", "loaded")], ["a", "b"]⟩

/-- Fixture: the registry after registering `"a"` with a self-referential
dependency list `["a"]`. -/
def sSelfFix : Sys := (registerModule 0 "a" (cfgDeps ["a"]) emptySys).2

end ModuleSystem


namespace ModuleSystem

/-! ## Helper lemmas on the JS map/set models -/

theorem mem_setAdd {x y : String} {l : List String} :
    y ∈ setAdd x l ↔ y ∈ l ∨ y = x := by
  unfold setAdd
  by_cases h : x ∈ l
  · rw [if_pos (by simpa using h)]
    exact ⟨Or.inl, fun hy => hy.elim id (fun e => e ▸ h)⟩
  · rw [if_neg (by simpa using h)]
    simp [List.mem_append]

theorem mem_setDelete {x y : String} {l : List String} :
    y ∈ setDelete x l ↔ y ∈ l ∧ y ≠ x := by
  unfold setDelete
  simp [List.mem_filter]

theorem setDelete_append_self {x : String} {l : List String} (h : x ∉ l) :
    setDelete x (l ++ [x]) = l := by
  unfold setDelete
  rw [List.filter_append]
  have h1 : l.filter (fun y => y != x) = l :=
    List.filter_eq_self.mpr (fun a ha => by
      simp only [bne_iff_ne, ne_eq, decide_eq_true_eq]
      exact fun e => h (e ▸ ha))
  have h2 : [x].filter (fun y => y != x) = [] := by simp
  rw [h1, h2, List.append_nil]

theorem setAdd_of_not_contains {x : String} {l : List String}
    (h : l.contains x = false) : setAdd x l = l ++ [x] := by
  unfold setAdd
  have hx : x ∉ l := by simpa using h
  simp [hx]

theorem setDelete_of_not_mem {x : String} {l : List String} (h : x ∉ l) :
    setDelete x l = l := by
  unfold setDelete
  exact List.filter_eq_self.mpr (fun a ha => by
    simp only [bne_iff_ne, ne_eq, decide_eq_true_eq]
    exact fun e => h (e ▸ ha))

theorem mapGet_mapSet_self (k : String) (v : α) (m : List (String × α)) :
    mapGet k (mapSet k v m) = some v := by
  induction m with
  | nil => simp [mapGet, mapSet]
  | cons p t ih =>
    by_cases hp : p.1 = k
    · simp [mapGet, mapSet, hp]
    · simp [mapGet, mapSet, hp, ih]

theorem mapGet_mapSet_ne (k k' : String) (v : α) (m : List (String × α))
    (h : k ≠ k') : mapGet k (mapSet k' v m) = mapGet k m := by
  have hk'k : ¬ (k' = k) := fun e => h e.symm
  induction m with
  | nil => simp [mapGet, mapSet, hk'k]
  | cons p t ih =>
    by_cases hp : p.1 = k'
    · have hpk : ¬ (p.1 = k) := fun e => h (by rw [← e, hp])
      simp [mapGet, mapSet, hp, hpk, hk'k]
    · by_cases hk : p.1 = k
      · simp [mapGet, mapSet, hp, hk, h]
      · simp [mapGet, mapSet, hp, hk, ih]

theorem mapGet_mapDelete_ne (k k' : String) (m : List (String × α))
    (h : k ≠ k') : mapGet k (mapDelete k' m) = mapGet k m := by
  have hk'k : ¬ (k' = k) := fun e => h e.symm
  induction m with
  | nil => simp [mapGet, mapDelete]
  | cons p t ih =>
    by_cases hp : p.1 = k'
    · have hpk : ¬ (p.1 = k) := fun e => h (by rw [← e, hp])
      simp [mapGet, mapDelete, hp, hpk, hk'k]
    · by_cases hk : p.1 = k
      · simp [mapGet, mapDelete, hp, hk, h]
      · simp [mapGet, mapDelete, hp, hk, ih]

theorem mapGet_isSome_mapSet (k k' : String) (v : α) (m : List (String × α))
    (h : (mapGet k m).isSome) : (mapGet k (mapSet k' v m)).isSome := by
  by_cases e : k = k'
  · subst e; rw [mapGet_mapSet_self]; rfl
  · rw [mapGet_mapSet_ne _ _ _ _ e]; exact h

end ModuleSystem


namespace ModuleSystem

/-! ## C10: unloading a registered but not-loaded module is a no-op -/

theorem getDependents_eq_nil_iff (id : String) (s : Sys) :
    getDependents id s = [] ↔ ¬ HasRegisteredDependent id s := by
  unfold getDependents HasRegisteredDependent
  rw [List.map_eq_nil_iff, List.filter_eq_nil_iff]
  constructor
  · rintro h ⟨p, hp, hmem⟩
    exact h p hp (by simpa [List.elem_iff] using hmem)
  · intro h p hp hc
    exact h ⟨p, hp, by simpa [List.elem_iff] using hc⟩

/-- C10: for a registered module that is not currently loaded,
`unloadModule` returns successfully, invokes no hook, emits no event, and
leaves the entire system state (statuses, loaded set, descriptors)
unchanged. -/
theorem unloadModule_noop_on_not_loaded (id : String) (s : Sys) (m : Module)
    (hreg : mapGet id s.modules = some m)
    (hnl : id ∉ s.loadedModules) :
    unloadModule id s = (.ok (), s, []) := by
  unfold unloadModule
  simp only [hreg]
  rw [if_pos (by simpa [List.elem_iff] using hnl)]

/-- C10 witness: `"b"` is registered but not loaded in `sC4fix`. -/
theorem unloadModule_noop_witness :
    unloadModule "b" sC4fix = (.ok (), sC4fix, []) :=
  unloadModule_noop_on_not_loaded "b" sC4fix mBreg (by decide) (by decide)

/-! ## C1: registration never validates acyclicity (corrected) -/

/-- C1 counterexample: registering `"a"` with dependency list `["a"]` (its
own id) does not fail and does change the registry — the module set gains
the self-cyclic descriptor, contradicting "fails with
CircularDependencyError and the registry's module set is exactly what it
was before the call". -/
theorem registerModule_self_cycle_not_rejected :
    sSelfFix.modules ≠ emptySys.modules
    ∧ mapGet "a" sSelfFix.modules
        = some { id := "a", name := none, version := none,
                 dependencies := ["a"], exports := [], initHook := true,
                 destroyHook := true, updateHook := true, config := [],
                 state := "registered", lastUpdated := 0 } := by
  constructor
  · decide
  · decide

/-- C1 amended: `registerModule` performs no cycle (or any other)
validation: for every state and descriptor — including one whose dependency
set transitively contains its own id — registration succeeds, stores the
descriptor under its id with status Registered, and touches no other
registry entry; the cycle is only detected later, at load time, where
`loadModule` fails with the circular-dependency error and leaves the state
unchanged (concrete self-dependency instance). -/
theorem registerModule_unconditional :
    (∀ now id cfg s,
      mapGet id (registerModule now id cfg s).2.modules
          = some (registerModule now id cfg s).1
        ∧ (registerModule now id cfg s).1.state = "registered"
        ∧ (registerModule now id cfg s).1.dependencies
            = cfg.dependencies.getD []
        ∧ mapGet id (registerModule now id cfg s).2.moduleStates
            = some "registered"
        ∧ (registerModule now id cfg s).2.loadedModules = s.loadedModules
        ∧ ∀ k, k ≠ id →
            mapGet k (registerModule now id cfg s).2.modules
              = mapGet k s.modules)
    ∧ loadModule 10 "a" sSelfFix = (.error (.circular "a"), sSelfFix, []) := by
  constructor
  · intro now id cfg s
    refine ⟨mapGet_mapSet_self _ _ _, rfl, rfl, mapGet_mapSet_self _ _ _,
            rfl, fun k hk => mapGet_mapSet_ne _ _ _ _ hk⟩
  · simp [loadModule, checkDependencies, checkCircular, checkCircularList,
          getDependencyOrder, visit, visitList, loadList, sSelfFix,
          registerModule, cfgDeps, emptySys, mapGet, mapSet, setAdd, setDelete]

/-- C1 amended witness: the general part instantiated on the concrete
self-cycle registration. -/
theorem registerModule_unconditional_witness :
    mapGet "a" sSelfFix.modules
        = some (registerModule 0 "a" (cfgDeps ["a"]) emptySys).1
    ∧ mapGet "other" sSelfFix.modules = mapGet "other" emptySys.modules :=
  ⟨(registerModule_unconditional.1 0 "a" (cfgDeps ["a"]) emptySys).1,
   (registerModule_unconditional.1 0 "a" (cfgDeps ["a"]) emptySys).2.2.2.2.2
     "other" (by decide)⟩

end ModuleSystem

namespace ModuleSystem

/-! ## C4: the unload dependents check ignores load status (corrected) -/

/-- C4 counterexample: in `sC4fix` the only Loaded module is `"a"` (whose
dependency list is empty), so no Loaded module's dependency set contains
`"a"` — yet `unloadModule "a"` fails with the dependents-exist error,
blocked by the merely Registered (never loaded) `"b"`.  The claim's "once
no such dependent remains, unload(id) succeeds" is false on the code. -/
theorem unload_blocked_by_not_loaded_dependent :
    sC4fix.loadedModules = ["a"]
    ∧ (mapGet "a" sC4fix.modules).map Module.dependencies = some []
    ∧ "b" ∉ sC4fix.loadedModules
    ∧ unloadModule "a" sC4fix
        = (.error (.dependentsExist "a" ["b"]), sC4fix, []) := by
  refine ⟨rfl, by decide, by decide, by decide⟩

/-- C4 amended: `unloadModule id` on a loaded module fails with the
dependents-exist error — without invoking `destroy`, emitting an event, or
changing any state — while any *registered* module's dependency set
contains `id`, regardless of that dependent's load status; once no
registered dependent remains (and the `destroy` hook returns normally), it
succeeds and the module's status becomes Unloaded. -/
theorem unload_dependents_rule (id : String) (s : Sys) (m : Module)
    (hreg : mapGet id s.modules = some m)
    (hld : id ∈ s.loadedModules) :
    (HasRegisteredDependent id s →
       unloadModule id s
         = (.error (.dependentsExist id (getDependents id s)), s, []))
    ∧ (¬ HasRegisteredDependent id s → m.destroyHook = true →
       unloadModule id s
         = (.ok (),
            { s with loadedModules := setDelete id s.loadedModules
                     moduleStates := mapSet id "unloaded" s.moduleStates
                     modules := mapSet id { m with state := "unloaded" }
                                  s.modules },
            [.destroyHook id, .moduleUnloaded id])) := by
  have hcon : ¬ (¬ s.loadedModules.contains id = true) := by
    simp [List.elem_iff]
    exact hld
  constructor
  · intro hdep
    have hne : ¬ (getDependents id s).isEmpty = true := by
      rw [List.isEmpty_iff]
      exact fun e => (getDependents_eq_nil_iff id s).mp e hdep
    unfold unloadModule
    simp only [hreg]
    rw [if_neg hcon, if_neg hne]
  · intro hdep hdes
    have hemp : (getDependents id s).isEmpty = true := by
      rw [List.isEmpty_iff]
      exact (getDependents_eq_nil_iff id s).mpr hdep
    unfold unloadModule
    simp only [hreg]
    rw [if_neg hcon, if_pos hemp, if_pos hdes]

/-- C4 amended witness: `"a"` in `sLoadedA` has no registered dependent, so
its unload succeeds and its status becomes Unloaded. -/
theorem unload_dependents_rule_witness :
    unloadModule "a" sLoadedA
      = (.ok (),
         { sLoadedA with loadedModules := setDelete "a" sLoadedA.loadedModules
                         moduleStates := mapSet "a" "unloaded" sLoadedA.moduleStates
                         modules := mapSet "a" { mA with state := "unloaded" }
                                      sLoadedA.modules },
         [.destroyHook "a", .moduleUnloaded "a"]) :=
  (unload_dependents_rule "a" sLoadedA mA (by decide) (by decide)).2
    (by decide) rfl

/-! ## C5: hot-swap merges wholesale, so a fragment can change the id
(corrected) -/

/-- C5 counterexample: hot-swapping the loaded module `"a"` with the
fragment `{id: "b"}` succeeds and overwrites the descriptor's `id` field
with `"b"` (the `Object.assign` merge copies every field of the fragment),
contradicting "hotSwap(id, fragment) never changes the module's id". -/
theorem hotSwap_fragment_changes_id :
    (hotSwapModule 5 "a" { id := some "b" } sLoadedA).1
      = .ok { id := "b", name := none, version := none, dependencies := [],
              exports := [], initHook := true, destroyHook := true,
              updateHook := true, config := [], state := "loaded",
              lastUpdated := 5 }
    ∧ (mapGet "a" (hotSwapModule 5 "a" { id := some "b" } sLoadedA).2.1.modules).map
        Module.id = some "b" := by
  constructor
  · decide
  · decide

/-- C5 amended: `hotSwapModule` fails with the not-loaded error (the spec's
`InvalidStateError`), leaving everything unchanged, whenever the target is
registered but not currently Loaded; on a Loaded target it invokes the
`update` hook exactly once per call, with the old descriptor and the merged
descriptor as arguments, stores the merged descriptor under the unchanged
registry key — and the merged descriptor keeps the old `id` only for
fragments that do not themselves carry an `id` field. -/
theorem hotSwap_rules (now : Nat) (id : String) (cfg : ModuleConfig)
    (s : Sys) (m : Module) (hreg : mapGet id s.modules = some m) :
    (id ∉ s.loadedModules →
       hotSwapModule now id cfg s = (.error (.notLoaded id), s, []))
    ∧ (id ∈ s.loadedModules →
       countUpdate id (hotSwapModule now id cfg s).2.2 = 1
       ∧ (hotSwapModule now id cfg s).2.2.head?
           = some (.updateHook id m
               { objectAssign m cfg with lastUpdated := now })
       ∧ mapGet id (hotSwapModule now id cfg s).2.1.modules
           = some { objectAssign m cfg with lastUpdated := now }
       ∧ (cfg.id = none →
           ({ objectAssign m cfg with lastUpdated := now } : Module).id
             = m.id)) := by
  constructor
  · intro hnl
    unfold hotSwapModule
    simp only [hreg]
    rw [if_pos (by simpa [List.elem_iff] using hnl)]
  · intro hld
    have hcon : ¬ (¬ s.loadedModules.contains id = true) := by
      simp [List.elem_iff]
      exact hld
    have hid : cfg.id = none →
        ({ objectAssign m cfg with lastUpdated := now } : Module).id = m.id := by
      intro hc
      simp [objectAssign, hc]
    unfold hotSwapModule
    simp only [hreg]
    rw [if_neg hcon]
    by_cases hu : ({ objectAssign m cfg with lastUpdated := now } : Module).updateHook
    · rw [if_pos hu]
      exact ⟨by simp [countUpdate], rfl, mapGet_mapSet_self _ _ _, hid⟩
    · rw [if_neg hu]
      exact ⟨by simp [countUpdate], rfl, mapGet_mapSet_self _ _ _, hid⟩

/-- C5 amended witness: an id-free fragment on the loaded `"a"` updates in
place, fires `update` once, and keeps the id. -/
theorem hotSwap_rules_witness :
    countUpdate "a" (hotSwapModule 7 "a" { version := some "2" } sLoadedA).2.2 = 1
    ∧ ({ objectAssign mA { version := some "2" } with lastUpdated := 7 } : Module).id
        = mA.id :=
  ⟨((hotSwap_rules 7 "a" { version := some "2" } sLoadedA mA (by decide)).2
      (by decide)).1,
   ((hotSwap_rules 7 "a" { version := some "2" } sLoadedA mA (by decide)).2
      (by decide)).2.2.2 rfl⟩

/-! ## C6: restart unloads in insertion order, not reverse-topological
order (corrected) -/

/-- C6 counterexample: in `sC6fix` the loaded set is `["a", "b"]` with `"b"`
depending on `"a"`; a reverse topological unload would destroy `"b"` then
`"a"`.  `restartSystem` instead iterates insertion order: unloading `"a"`
first fails (its dependent `"b"` is still registered) and is swallowed, so
`"a"`'s destroy hook never runs at all; only `"b"` is destroyed, after
which the registry is cleared wholesale and SystemRestart is emitted.  The
claim's "unloads every Loaded module in the reverse of a global topological
order" is false on the code. -/
theorem restart_skips_depended_module :
    sC6fix.loadedModules = ["a", "b"]
    ∧ (restartSystem sC6fix).2
        = [.destroyHook "b", .moduleUnloaded "b", .systemRestart]
    ∧ Ev.destroyHook "a" ∉ (restartSystem sC6fix).2
    ∧ (restartSystem sC6fix).1 = emptySys := by
  refine ⟨rfl, by decide, by decide, by decide⟩

/-- C6 amended: `restartSystem` attempts to unload the loaded modules in the
loaded set's insertion order (dependencies first — the opposite of a
reverse topological order), swallowing individual failures, so a module
that still has a registered dependent at its turn is skipped and its
destroy hook never runs; it then unconditionally empties the registry,
status map and loaded set, and publishes SystemRestart as the final event
(general part), as exhibited on the two-module chain `sC6fix` where `"b"`
is destroyed but `"a"` never is (concrete part). -/
theorem restart_insertion_order_clear :
    (∀ s : Sys,
      (restartSystem s).1 = emptySys
      ∧ (restartSystem s).2
          = (unloadAll s.loadedModules s).2 ++ [.systemRestart])
    ∧ Ev.destroyHook "b" ∈ (restartSystem sC6fix).2
    ∧ Ev.destroyHook "a" ∉ (restartSystem sC6fix).2 := by
  refine ⟨fun s => ?_, by decide, by decide⟩
  unfold restartSystem
  constructor
  · rfl
  · rfl

end ModuleSystem

namespace Persistence

/-! ## C7: save/load round trip and history growth -/

mutual
theorem deepClone_eq : ∀ j : Json, deepClone j = j
  | .null => by simp [deepClone]
  | .bool b => by simp [deepClone]
  | .num n => by simp [deepClone]
  | .str s => by simp [deepClone]
  | .arr xs => by simp [deepClone, deepCloneList_eq xs]
  | .obj fs => by simp [deepClone, deepCloneFields_eq fs]

theorem deepCloneList_eq : ∀ js : List Json, deepCloneList js = js
  | [] => by simp [deepCloneList]
  | j :: t => by simp [deepCloneList, deepClone_eq j, deepCloneList_eq t]

theorem deepCloneFields_eq : ∀ fs : List (String × Json),
    deepCloneFields fs = fs
  | [] => by simp [deepCloneFields]
  | (k, j) :: t => by
      simp [deepCloneFields, deepClone_eq j, deepCloneFields_eq t]
end

/-- C7: for a module id and a JSON-serializable state, a successful
`saveModuleState` followed by `loadModuleState` (no intervening save)
returns a value equal to the saved state, and the save grows the history
store's entry set for that id by exactly one. -/
theorem saveLoad_roundtrip (now : Nat) (id : String) (st : Json)
    (opts : SaveOptions) (p : PStore) (rec : StateRecord) (p' : PStore)
    (hdb : p.dbInit = true)
    (hsave : saveModuleState now id st opts p = .ok (rec, p')) :
    loadModuleState id none p' = .ok (some st)
    ∧ (historyEntriesFor id p').length
        = (historyEntriesFor id p).length + 1
    ∧ rec.state = st ∧ rec.moduleId = id ∧ rec.timestamp = now := by
  unfold saveModuleState at hsave
  rw [if_neg (by simp [hdb])] at hsave
  injection hsave with h
  injection h with h1 h2
  subst h1 h2
  refine ⟨?_, ?_, deepClone_eq st, rfl, rfl⟩
  · unfold loadModuleState
    rw [if_neg (by simp [hdb])]
    rw [ModuleSystem.mapGet_mapSet_self]
    simp [deepClone_eq]
  · unfold historyEntriesFor
    simp [List.filter_append]

/-- C7 witness: a concrete save into an empty initialized store. -/
theorem saveLoad_roundtrip_witness :
    loadModuleState "m"
        none
        { dbInit := true
          moduleStates :=
            ModuleSystem.mapSet "m"
              { moduleId := "m", state := deepClone (Json.num 42)
                timestamp := 3, version := "1.0.0", metadata := [] } []
          stateHistory :=
            [] ++ [{ id := 0, moduleId := "m"
                     state := deepClone (Json.num 42), timestamp := 3
                     version := "1.0.0", metadata := [] }]
          nextHistoryId := 1 }
      = .ok (some (Json.num 42))
    ∧ (historyEntriesFor "m"
        { dbInit := true
          moduleStates :=
            ModuleSystem.mapSet "m"
              { moduleId := "m", state := deepClone (Json.num 42)
                timestamp := 3, version := "1.0.0", metadata := [] } []
          stateHistory :=
            [] ++ [{ id := 0, moduleId := "m"
                     state := deepClone (Json.num 42), timestamp := 3
                     version := "1.0.0", metadata := [] }]
          nextHistoryId := 1 }).length
      = (historyEntriesFor "m"
          { dbInit := true, moduleStates := [], stateHistory := []
            nextHistoryId := 0 }).length + 1 := by
  have h := saveLoad_roundtrip 3 "m" (Json.num 42) {}
    { dbInit := true, moduleStates := [], stateHistory := []
      nextHistoryId := 0 }
    { moduleId := "m", state := deepClone (Json.num 42), timestamp := 3
      version := "1.0.0", metadata := [] }
    { dbInit := true
      moduleStates :=
        ModuleSystem.mapSet "m"
          { moduleId := "m", state := deepClone (Json.num 42)
            timestamp := 3, version := "1.0.0", metadata := [] } []
      stateHistory :=
        [] ++ [{ id := 0, moduleId := "m"
                 state := deepClone (Json.num 42), timestamp := 3
                 version := "1.0.0", metadata := [] }]
      nextHistoryId := 1 }
    rfl rfl
  exact ⟨h.1, h.2.1⟩

end Persistence

namespace WSServer

/-! ## C8: a malformed frame gets an error reply and nothing else -/

/-- C8: for a connected peer (present in the client map, socket open), a
frame that fails `JSON.parse` produces exactly one reply — an `error`
envelope to that peer carrying the error text and the timestamp — while the
server state (in particular the client/broadcast set and the peer's open
connection) is completely unchanged and no connection is closed. -/
theorem malformed_frame_error_reply (now : Nat) (cid : String) (s : Server)
    (c : Client) (hc : ModuleSystem.mapGet cid s.clients = some c)
    (hopen : c.isOpen = true) :
    onFrame now cid none s
      = (s, [(cid, .errorMsg "Invalid JSON message" now)]) := by
  unfold onFrame sendError sendTo
  rw [hc]
  simp [hopen]

/-- C8 witness: a one-client server receiving garbage. -/
theorem malformed_frame_error_reply_witness :
    onFrame 9 "c1" none
        { clients := [("c1", { ctype := "avatar-system", lastPing := 0
                               registered := true, isOpen := true })]
          moduleRegistry := [], moduleFiles := []
          systemStatus := { running := true, modulesLoaded := 0
                            lastUpdate := 0 } }
      = ({ clients := [("c1", { ctype := "avatar-system", lastPing := 0
                                registered := true, isOpen := true })]
           moduleRegistry := [], moduleFiles := []
           systemStatus := { running := true, modulesLoaded := 0
                             lastUpdate := 0 } },
         [("c1", .errorMsg "Invalid JSON message" 9)]) :=
  malformed_frame_error_reply 9 "c1" _
    { ctype := "avatar-system", lastPing := 0
      registered := true, isOpen := true }
    (by decide) rfl

end WSServer

namespace ModuleSystem

/-! ## Graph-reachability infrastructure -/

theorem sameGraph_refl (s : Sys) : sameGraph s s := fun _ => rfl

theorem sameGraph_trans {s1 s2 s3 : Sys} (h1 : sameGraph s1 s2)
    (h2 : sameGraph s2 s3) : sameGraph s1 s3 :=
  fun k => (h1 k).trans (h2 k)

theorem depsOf_eq_of_sameGraph {s s' : Sys} (h : sameGraph s s') (k : String) :
    depsOf s.modules k = depsOf s'.modules k := by
  unfold depsOf
  have := h k
  cases hg : mapGet k s.modules with
  | none =>
    rw [hg] at this
    cases hg' : mapGet k s'.modules with
    | none => rfl
    | some m' => rw [hg'] at this; simp at this
  | some m =>
    rw [hg] at this
    cases hg' : mapGet k s'.modules with
    | none => rw [hg'] at this; simp at this
    | some m' =>
      rw [hg'] at this
      simp at this
      simp [this]

theorem isSome_of_sameGraph {s s' : Sys} (h : sameGraph s s') (k : String)
    (hk : (mapGet k s.modules).isSome) : (mapGet k s'.modules).isSome := by
  have := h k
  cases hg : mapGet k s.modules with
  | none => rw [hg] at hk; simp at hk
  | some m =>
    rw [hg] at this
    cases hg' : mapGet k s'.modules with
    | none => rw [hg'] at this; simp at this
    | some m' => simp

theorem reach_congr {g g' : List (String × Module)}
    (h : ∀ k, depsOf g k = depsOf g' k) {a b : String}
    (hr : Reach g a b) : Reach g' a b := by
  induction hr with
  | refl => exact Relation.ReflTransGen.refl
  | tail _ hstep ih =>
    exact Relation.ReflTransGen.tail ih (by rw [← h]; exact hstep)

theorem reach_of_sameGraph {s s' : Sys} (h : sameGraph s s') {a b : String}
    (hr : Reach s.modules a b) : Reach s'.modules a b :=
  reach_congr (depsOf_eq_of_sameGraph h) hr

/-! ## Soundness of `checkCircular` -/

/-- Invariant of the `visited` set of `checkCircular`: every visited node's
dependencies avoid the target and are themselves visited. -/
def CCInv (g : List (String × Module)) (t : String)
    (visited : List String) : Prop :=
  ∀ v ∈ visited, ∀ d ∈ depsOf g v, d ≠ t ∧ d ∈ visited

theorem ccSound_step (g : List (String × Module)) :
    ∀ fuel,
      (∀ c t st st', checkCircular g fuel c t st = .ok st' →
        CCInv g t st.visited →
        CCInv g t st'.visited ∧ c ∈ st'.visited
          ∧ ∀ x ∈ st.visited, x ∈ st'.visited)
      ∧ (∀ ds t st st', checkCircularList g fuel ds t st = .ok st' →
          CCInv g t st.visited →
          CCInv g t st'.visited ∧ (∀ d ∈ ds, d ≠ t ∧ d ∈ st'.visited)
            ∧ ∀ x ∈ st.visited, x ∈ st'.visited) := by
  intro fuel
  induction fuel with
  | zero =>
    constructor
    · intro c t st st' h
      rw [show checkCircular g 0 c t st = .error .fuel by
            simp [checkCircular]] at h
      exact absurd h (by simp)
    · intro ds t st st' h hInv
      cases ds with
      | nil =>
        rw [show checkCircularList g 0 [] t st = .ok st by
              simp [checkCircularList]] at h
        injection h with h
        subst h
        exact ⟨hInv, by simp, fun x hx => hx⟩
      | cons d rest =>
        unfold checkCircularList at h
        split at h
        · exact absurd h (by simp)
        · rw [show checkCircular g 0 d t st = .error .fuel by
                simp [checkCircular]] at h
          exact absurd h (by simp)
  | succ fuel ih =>
    have ihL := ih.2
    have stepS : ∀ c t st st', checkCircular g (fuel+1) c t st = .ok st' →
        CCInv g t st.visited →
        CCInv g t st'.visited ∧ c ∈ st'.visited
          ∧ ∀ x ∈ st.visited, x ∈ st'.visited := by
      intro c t st st' h hInv
      unfold checkCircular at h
      split at h
      · exact absurd h (by simp)
      · split at h
        · rename_i hvis
          injection h with h
          subst h
          exact ⟨hInv, List.elem_iff.mp (by simpa using hvis),
                 fun x hx => hx⟩
        · cases hg : mapGet c g with
          | some m =>
            rw [hg] at h
            dsimp only at h
            cases hsub : checkCircularList g fuel m.dependencies t
                { st with visiting := setAdd c st.visiting } with
            | error e => rw [hsub] at h; exact absurd h (by simp)
            | ok st2 =>
              rw [hsub] at h
              injection h with h
              subst h
              obtain ⟨hInv2, hdeps, hmono⟩ :=
                ihL m.dependencies t _ _ hsub hInv
              have hdepsOfc : depsOf g c = m.dependencies := by
                unfold depsOf
                rw [hg]
              refine ⟨?_, mem_setAdd.mpr (Or.inr rfl), ?_⟩
              · intro v hv d hd
                rcases mem_setAdd.mp hv with hv2 | rfl
                · obtain ⟨hd1, hd2⟩ := hInv2 v hv2 d hd
                  exact ⟨hd1, mem_setAdd.mpr (Or.inl hd2)⟩
                · rw [hdepsOfc] at hd
                  obtain ⟨hd1, hd2⟩ := hdeps d hd
                  exact ⟨hd1, mem_setAdd.mpr (Or.inl hd2)⟩
              · intro x hx
                exact mem_setAdd.mpr (Or.inl (hmono x hx))
          | none =>
            rw [hg] at h
            dsimp only at h
            injection h with h
            subst h
            have hdepsOfc : depsOf g c = [] := by
              unfold depsOf
              rw [hg]
            refine ⟨?_, mem_setAdd.mpr (Or.inr rfl), ?_⟩
            · intro v hv d hd
              rcases mem_setAdd.mp hv with hv2 | rfl
              · obtain ⟨hd1, hd2⟩ := hInv v hv2 d hd
                exact ⟨hd1, mem_setAdd.mpr (Or.inl hd2)⟩
              · rw [hdepsOfc] at hd
                exact absurd hd (List.not_mem_nil d)
            · intro x hx
              exact mem_setAdd.mpr (Or.inl hx)
    refine ⟨stepS, ?_⟩
    intro ds
    induction ds with
    | nil =>
      intro t st st' h hInv
      rw [show checkCircularList g (fuel+1) [] t st = .ok st by
            simp [checkCircularList]] at h
      injection h with h
      subst h
      exact ⟨hInv, by simp, fun x hx => hx⟩
    | cons d rest ihrest =>
      intro t st st' h hInv
      unfold checkCircularList at h
      split at h
      · exact absurd h (by simp)
      · rename_i hdt
        cases hsub : checkCircular g (fuel+1) d t st with
        | error e => rw [hsub] at h; exact absurd h (by simp)
        | ok stm =>
          rw [hsub] at h
          obtain ⟨hInv1, hd1, hmono1⟩ := stepS d t st stm hsub hInv
          obtain ⟨hInv2, hrest, hmono2⟩ := ihrest t stm st' h hInv1
          have hdne : d ≠ t := by simpa using hdt
          refine ⟨hInv2, ?_, fun x hx => hmono2 x (hmono1 x hx)⟩
          intro d' hd'
          rcases List.mem_cons.mp hd' with rfl | hd'
          · exact ⟨hdne, hmono2 d' (hd1)⟩
          · exact hrest d' hd'

end ModuleSystem

namespace ModuleSystem

/-- A successful `checkCircular(id, id)` run from fresh sets guarantees that
no node reachable from `id` has `id` among its dependencies. -/
theorem checkCircular_no_back_edge (g : List (String × Module))
    (fuel : Nat) (id : String) (st' : CCState)
    (h : checkCircular g fuel id id ⟨[], []⟩ = .ok st') :
    ∀ z, Reach g id z → id ∉ depsOf g z := by
  obtain ⟨hInv, hid, -⟩ :=
    (ccSound_step g fuel).1 id id ⟨[], []⟩ st' h
      (fun v hv => absurd hv (List.not_mem_nil v))
  have hreach : ∀ z, Reach g id z → z ∈ st'.visited := by
    intro z hz
    induction hz with
    | refl => exact hid
    | tail _ hstep ihz =>
      rename_i b c _
      exact (hInv b ihz c hstep).2
  intro z hz hzin
  exact (hInv z (hreach z hz) id hzin).1 rfl

/-! ## Reach bound for the DFS of `getDependencyOrder` -/

theorem visit_reach_step (g : List (String × Module)) :
    ∀ fuel,
      (∀ d st st', visit g fuel d st = .ok st' →
        ∀ x ∈ st'.order, x ∈ st.order ∨ Reach g d x)
      ∧ (∀ ds st st', visitList g fuel ds st = .ok st' →
          ∀ x ∈ st'.order, x ∈ st.order ∨ ∃ d ∈ ds, Reach g d x) := by
  intro fuel
  induction fuel with
  | zero =>
    constructor
    · intro d st st' h
      rw [show visit g 0 d st = .error .fuel by simp [visit]] at h
      exact absurd h (by simp)
    · intro ds st st' h
      cases ds with
      | nil =>
        rw [show visitList g 0 [] st = .ok st by simp [visitList]] at h
        injection h with h
        subst h
        exact fun x hx => Or.inl hx
      | cons d rest =>
        unfold visitList at h
        rw [show visit g 0 d st = .error .fuel by simp [visit]] at h
        exact absurd h (by simp)
  | succ fuel ih =>
    have ihL := ih.2
    have stepV : ∀ d st st', visit g (fuel+1) d st = .ok st' →
        ∀ x ∈ st'.order, x ∈ st.order ∨ Reach g d x := by
      intro d st st' h x hx
      unfold visit at h
      split at h
      · exact absurd h (by simp)
      · split at h
        · injection h with h
          subst h
          exact Or.inl hx
        · cases hg : mapGet d g with
          | some m =>
            rw [hg] at h
            dsimp only at h
            cases hsub : visitList g fuel m.dependencies
                { st with visiting := setAdd d st.visiting } with
            | error e => rw [hsub] at h; exact absurd h (by simp)
            | ok st2 =>
              rw [hsub] at h
              injection h with h
              subst h
              dsimp only at hx
              rcases List.mem_append.mp hx with hx2 | hxd
              · rcases ihL m.dependencies _ _ hsub x hx2 with hold | hreach
                · exact Or.inl hold
                · obtain ⟨e, he, hre⟩ := hreach
                  refine Or.inr (Relation.ReflTransGen.head ?_ hre)
                  unfold depsOf
                  rw [hg]
                  exact he
              · have : x = d := by simpa using hxd
                subst this
                exact Or.inr Relation.ReflTransGen.refl
          | none =>
            rw [hg] at h
            dsimp only at h
            injection h with h
            subst h
            dsimp only at hx
            rcases List.mem_append.mp hx with hx2 | hxd
            · exact Or.inl hx2
            · have : x = d := by simpa using hxd
              subst this
              exact Or.inr Relation.ReflTransGen.refl
    refine ⟨stepV, ?_⟩
    intro ds
    induction ds with
    | nil =>
      intro st st' h x hx
      rw [show visitList g (fuel+1) [] st = .ok st by simp [visitList]] at h
      injection h with h
      subst h
      exact Or.inl hx
    | cons d rest ihrest =>
      intro st st' h x hx
      unfold visitList at h
      cases hsub : visit g (fuel+1) d st with
      | error e => rw [hsub] at h; exact absurd h (by simp)
      | ok stm =>
        rw [hsub] at h
        rcases ihrest stm st' h x hx with hold | ⟨e, he, hre⟩
        · rcases stepV d st stm hsub x hold with hold2 | hreach
          · exact Or.inl hold2
          · exact Or.inr ⟨d, List.mem_cons_self d rest, hreach⟩
        · exact Or.inr ⟨e, List.mem_cons_of_mem d he, hre⟩

/-- Every id in a successfully computed dependency order is reachable from
one of the root dependencies. -/
theorem getDependencyOrder_reach (g : List (String × Module)) (fuel : Nat)
    (ds order : List String)
    (h : getDependencyOrder g fuel ds = .ok order) :
    ∀ x ∈ order, ∃ d ∈ ds, Reach g d x := by
  unfold getDependencyOrder at h
  cases hsub : visitList g fuel ds ⟨[], [], []⟩ with
  | error e => rw [hsub] at h; exact absurd h (by simp)
  | ok st =>
    rw [hsub] at h
    injection h with h
    subst h
    intro x hx
    rcases (visit_reach_step g fuel).2 ds _ _ hsub x hx with hold | hgood
    · exact absurd hold (List.not_mem_nil x)
    · exact hgood

end ModuleSystem

namespace ModuleSystem

/-! ## Trace-counting and graph-update helpers -/

theorem countInit_append (id : String) (tr tr' : List Ev) :
    countInit id (tr ++ tr') = countInit id tr + countInit id tr' := by
  unfold countInit
  rw [List.filter_append, List.length_append]

theorem countInit_nil (id : String) : countInit id [] = 0 := rfl

theorem countInit_load_events (id x : String) :
    countInit x [.initHook id, .moduleLoaded id]
      = if x = id then 1 else 0 := by
  by_cases h : id = x
  · subst h
    simp [countInit]
  · have h' : ¬ (x = id) := fun e => h e.symm
    simp [countInit, h, h']

theorem countInit_init_event (id x : String) :
    countInit x [Ev.initHook id] = if x = id then 1 else 0 := by
  by_cases h : id = x
  · subst h
    simp [countInit]
  · have h' : ¬ (x = id) := fun e => h e.symm
    simp [countInit, h, h']

theorem sameGraph_symm {s s' : Sys} (h : sameGraph s s') : sameGraph s' s :=
  fun k => (h k).symm

/-- Updating one entry with a module of identical dependency list preserves
the graph (regardless of the other state components). -/
theorem sameGraph_update {s s' : Sys} (k : String) (m1 m2 : Module)
    (hmod : s'.modules = mapSet k m2 s.modules)
    (hg : mapGet k s.modules = some m1)
    (hdep : m2.dependencies = m1.dependencies) : sameGraph s s' := by
  intro j
  rw [hmod]
  by_cases e : j = k
  · subst e
    rw [mapGet_mapSet_self, hg]
    simp [hdep]
  · rw [mapGet_mapSet_ne _ _ _ _ e]

end ModuleSystem

namespace ModuleSystem

/-- Loaded set only grows during a load. -/
def LoadedMono (s s' : Sys) : Prop :=
  ∀ x ∈ s.loadedModules, x ∈ s'.loadedModules

/-- The trace invokes the `init` hook of exactly the newly loaded ids, once
each. -/
def CountChar (s s' : Sys) (tr : List Ev) : Prop :=
  ∀ x, countInit x tr
    = if x ∈ s'.loadedModules ∧ x ∉ s.loadedModules then 1 else 0

/-- Combined behavioural lemma for the loader: the loaded set grows
monotonically, the dependency graph is untouched, every newly loaded id is
registered afterwards and reachable from the requested root, and (on
success) `init` fires exactly once per newly loaded id. -/
theorem load_meta :
    ∀ fuel,
      (∀ id s r s' tr, loadModule fuel id s = (r, s', tr) →
        LoadedMono s s' ∧ sameGraph s s'
        ∧ (∀ x ∈ s'.loadedModules, x ∉ s.loadedModules →
             (mapGet x s'.modules).isSome ∧ Reach s.modules id x)
        ∧ ∀ m, r = .ok m → CountChar s s' tr)
      ∧ (∀ id s r s' tr, checkDependencies fuel id s = (r, s', tr) →
          LoadedMono s s' ∧ sameGraph s s'
          ∧ (∀ x ∈ s'.loadedModules, x ∉ s.loadedModules →
               (mapGet x s'.modules).isSome
               ∧ ∃ d ∈ depsOf s.modules id, Reach s.modules d x)
          ∧ (r = .ok () → CountChar s s' tr
              ∧ (id ∈ s'.loadedModules → id ∈ s.loadedModules)))
      ∧ (∀ ds s r s' tr, loadList fuel ds s = (r, s', tr) →
          LoadedMono s s' ∧ sameGraph s s'
          ∧ (∀ x ∈ s'.loadedModules, x ∉ s.loadedModules →
               (mapGet x s'.modules).isSome
               ∧ ∃ d ∈ ds, Reach s.modules d x)
          ∧ (r = .ok () → CountChar s s' tr)) := by
  intro fuel
  induction fuel with
  | zero =>
    refine ⟨?_, ?_, ?_⟩
    · intro id s r s' tr h
      rw [show loadModule 0 id s = (.error .fuel, s, []) by
            simp [loadModule]] at h
      injection h with h1 h2
      injection h2 with h2 h3
      subst h1 h2 h3
      exact ⟨fun x hx => hx, sameGraph_refl s,
             fun x hx hnx => absurd hx hnx, fun m hm => by simp at hm⟩
    · intro id s r s' tr h
      rw [show checkDependencies 0 id s = (.error .fuel, s, []) by
            simp [checkDependencies]] at h
      injection h with h1 h2
      injection h2 with h2 h3
      subst h1 h2 h3
      exact ⟨fun x hx => hx, sameGraph_refl s,
             fun x hx hnx => absurd hx hnx, fun hm => by simp at hm⟩
    · intro ds
      induction ds with
      | nil =>
        intro s r s' tr h
        rw [show loadList 0 [] s = (.ok (), s, []) by simp [loadList]] at h
        injection h with h1 h2
        injection h2 with h2 h3
        subst h1 h2 h3
        refine ⟨fun x hx => hx, sameGraph_refl s,
               fun x hx hnx => absurd hx hnx, fun _ x => ?_⟩
        rw [countInit_nil, if_neg (fun hc => hc.2 hc.1)]
      | cons d rest ihrest =>
        intro s r s' tr h
        unfold loadList at h
        split at h
        · obtain ⟨hm1, hg1, hn1, hok1⟩ := ihrest s r s' tr h
          refine ⟨hm1, hg1, ?_, hok1⟩
          intro x hx hnx
          obtain ⟨hsome, e, he, her⟩ := hn1 x hx hnx
          exact ⟨hsome, e, List.mem_cons_of_mem d he, her⟩
        · rw [show loadModule 0 d s = (.error .fuel, s, []) by
                simp [loadModule]] at h
          injection h with h1 h2
          injection h2 with h2 h3
          subst h1 h2 h3
          exact ⟨fun x hx => hx, sameGraph_refl s,
                 fun x hx hnx => absurd hx hnx, fun hm => by simp at hm⟩
  | succ fuel ih =>
    obtain ⟨-, ihC, ihLL⟩ := ih
    -- loadModule at fuel+1
    have stepL : ∀ id s r s' tr, loadModule (fuel+1) id s = (r, s', tr) →
        LoadedMono s s' ∧ sameGraph s s'
        ∧ (∀ x ∈ s'.loadedModules, x ∉ s.loadedModules →
             (mapGet x s'.modules).isSome ∧ Reach s.modules id x)
        ∧ ∀ m, r = .ok m → CountChar s s' tr := by
      intro id s r s' tr h
      unfold loadModule at h
      cases hg : mapGet id s.modules with
      | none =>
        rw [hg] at h
        dsimp only at h
        injection h with h1 h2
        injection h2 with h2 h3
        subst h1 h2 h3
        exact ⟨fun x hx => hx, sameGraph_refl s,
               fun x hx hnx => absurd hx hnx, fun m hm => by simp at hm⟩
      | some m =>
        rw [hg] at h
        dsimp only at h
        split at h
        · -- already loaded: immediate return
          rename_i hld
          injection h with h1 h2
          injection h2 with h2 h3
          subst h1 h2 h3
          refine ⟨fun x hx => hx, sameGraph_refl s,
                 fun x hx hnx => absurd hx hnx, fun m' hm' x => ?_⟩
          rw [countInit_nil, if_neg (fun hc => hc.2 hc.1)]
        · rename_i hld
          have hnotld : id ∉ s.loadedModules := by
            intro hmem
            exact hld (List.elem_iff.mpr hmem)
          cases hsub : checkDependencies fuel id s with
          | mk rc rest =>
            cases rest with
            | mk s1 tr1 =>
              rw [hsub] at h
              obtain ⟨hm1, hg1, hn1, hok1⟩ := ihC id s rc s1 tr1 hsub
              cases rc with
              | error e =>
                dsimp only at h
                injection h with h1 h2
                injection h2 with h2 h3
                subst h1 h2 h3
                refine ⟨hm1, hg1, ?_, fun m' hm' => by simp at hm'⟩
                intro x hx hnx
                obtain ⟨hsome, d, hd, hr⟩ := hn1 x hx hnx
                refine ⟨hsome, Relation.ReflTransGen.head ?_ hr⟩
                unfold depsOf
                rw [hg]
                unfold depsOf at hd
                rw [hg] at hd
                exact hd
              | ok u =>
                obtain ⟨hchar1, hnotnew⟩ := hok1 rfl
                dsimp only at h
                split at h
                · -- init hook succeeds
                  injection h with h1 h2
                  injection h2 with h2 h3
                  subst h1 h2 h3
                  have hid1 : id ∉ s1.loadedModules :=
                    fun hmem => hnotld (hnotnew hmem)
                  have hsg' : sameGraph s1
                      { s1 with
                        loadedModules := setAdd id s1.loadedModules
                        moduleStates := mapSet id "loaded" s1.moduleStates
                        modules := mapSet id { m with state := "loaded" }
                                     s1.modules } := by
                    have hg1id : ∃ m1, mapGet id s1.modules = some m1
                        ∧ m1.dependencies = m.dependencies := by
                      have := hg1 id
                      rw [hg] at this
                      cases hq : mapGet id s1.modules with
                      | none => rw [hq] at this; simp at this
                      | some m1 =>
                        rw [hq] at this
                        simp at this
                        exact ⟨m1, rfl, this.symm⟩
                    obtain ⟨m1, hm1g, hm1d⟩ := hg1id
                    exact sameGraph_update id m1 { m with state := "loaded" }
                      rfl hm1g (by simpa using hm1d.symm)
                  refine ⟨?_, sameGraph_trans hg1 hsg', ?_, ?_⟩
                  · intro x hx
                    exact mem_setAdd.mpr (Or.inl (hm1 x hx))
                  · intro x hx hnx
                    rcases mem_setAdd.mp hx with hx1 | rfl
                    · obtain ⟨hsome, d, hd, hr⟩ := hn1 x hx1 hnx
                      refine ⟨isSome_of_sameGraph hsg' x hsome,
                              Relation.ReflTransGen.head ?_ hr⟩
                      unfold depsOf
                      rw [hg]
                      unfold depsOf at hd
                      rw [hg] at hd
                      exact hd
                    · refine ⟨?_, Relation.ReflTransGen.refl⟩
                      show (mapGet x (mapSet x _ s1.modules)).isSome
                      rw [mapGet_mapSet_self]
                      rfl
                  · intro m' hm' x
                    rw [countInit_append, hchar1 x, countInit_load_events]
                    by_cases hx : x = id
                    · subst hx
                      rw [if_neg (fun hc => hid1 hc.1), if_pos rfl,
                          if_pos ⟨mem_setAdd.mpr (Or.inr rfl), hnotld⟩]
                    · rw [if_neg hx]
                      by_cases hc : x ∈ s1.loadedModules ∧ x ∉ s.loadedModules
                      · rw [if_pos hc, if_pos
                          ⟨mem_setAdd.mpr (Or.inl hc.1), hc.2⟩]
                      · rw [if_neg hc, if_neg (fun hc2 =>
                          (mem_setAdd.mp hc2.1).elim
                            (fun hx1 => hc ⟨hx1, hc2.2⟩)
                            (fun hx1 => hx hx1))]
                · -- init hook throws
                  injection h with h1 h2
                  injection h2 with h2 h3
                  subst h1 h2 h3
                  refine ⟨hm1, hg1, ?_, fun m' hm' => by simp at hm'⟩
                  intro x hx hnx
                  obtain ⟨hsome, d, hd, hr⟩ := hn1 x hx hnx
                  refine ⟨hsome, Relation.ReflTransGen.head ?_ hr⟩
                  unfold depsOf
                  rw [hg]
                  unfold depsOf at hd
                  rw [hg] at hd
                  exact hd
    -- checkDependencies at fuel+1
    have stepC : ∀ id s r s' tr,
        checkDependencies (fuel+1) id s = (r, s', tr) →
        LoadedMono s s' ∧ sameGraph s s'
        ∧ (∀ x ∈ s'.loadedModules, x ∉ s.loadedModules →
             (mapGet x s'.modules).isSome
             ∧ ∃ d ∈ depsOf s.modules id, Reach s.modules d x)
        ∧ (r = .ok () → CountChar s s' tr
            ∧ (id ∈ s'.loadedModules → id ∈ s.loadedModules)) := by
      intro id s r s' tr h
      unfold checkDependencies at h
      cases hg : mapGet id s.modules with
      | none =>
        rw [hg] at h
        dsimp only at h
        injection h with h1 h2
        injection h2 with h2 h3
        subst h1 h2 h3
        refine ⟨fun x hx => hx, sameGraph_refl s,
               fun x hx hnx => absurd hx hnx,
               fun _ => ⟨fun x => ?_, fun hmem => hmem⟩⟩
        rw [countInit_nil, if_neg (fun hc => hc.2 hc.1)]
      | some m =>
        rw [hg] at h
        dsimp only at h
        cases hcc : checkCircular s.modules (fuel+1) id id ⟨[], []⟩ with
        | error e =>
          rw [hcc] at h
          dsimp only at h
          injection h with h1 h2
          injection h2 with h2 h3
          subst h1 h2 h3
          exact ⟨fun x hx => hx, sameGraph_refl s,
                 fun x hx hnx => absurd hx hnx, fun hm => by simp at hm⟩
        | ok stc =>
          rw [hcc] at h
          dsimp only at h
          cases hord : getDependencyOrder s.modules (fuel+1)
              m.dependencies with
          | error e =>
            rw [hord] at h
            dsimp only at h
            injection h with h1 h2
            injection h2 with h2 h3
            subst h1 h2 h3
            exact ⟨fun x hx => hx, sameGraph_refl s,
                   fun x hx hnx => absurd hx hnx, fun hm => by simp at hm⟩
          | ok order =>
            rw [hord] at h
            dsimp only at h
            obtain ⟨hm1, hg1, hn1, hok1⟩ := ihLL order s r s' tr h
            have hreachdep : ∀ x ∈ s'.loadedModules, x ∉ s.loadedModules →
                (mapGet x s'.modules).isSome
                ∧ ∃ d ∈ depsOf s.modules id, Reach s.modules d x := by
              intro x hx hnx
              obtain ⟨hsome, d, hd, hr⟩ := hn1 x hx hnx
              obtain ⟨e, he, her⟩ :=
                getDependencyOrder_reach s.modules (fuel+1)
                  m.dependencies order hord d hd
              refine ⟨hsome, e, ?_, Relation.ReflTransGen.trans her hr⟩
              unfold depsOf
              rw [hg]
              exact he
            refine ⟨hm1, hg1, hreachdep, fun hok => ⟨hok1 hok, ?_⟩⟩
            intro hid
            by_contra hnid
            obtain ⟨-, d, hd, hr⟩ := hreachdep id hid hnid
            have hnbe := checkCircular_no_back_edge s.modules (fuel+1)
              id stc hcc
            rcases Relation.ReflTransGen.cases_tail hr with heq | ⟨c, hc, hcd⟩
            · have hd' : id ∈ depsOf s.modules id := by
                rw [← heq] at hd
                exact hd
              exact hnbe id Relation.ReflTransGen.refl hd'
            · exact hnbe c (Relation.ReflTransGen.head hd hc) hcd
    -- loadList at fuel+1
    refine ⟨stepL, stepC, ?_⟩
    intro ds
    induction ds with
    | nil =>
      intro s r s' tr h
      rw [show loadList (fuel+1) [] s = (.ok (), s, []) by
            simp [loadList]] at h
      injection h with h1 h2
      injection h2 with h2 h3
      subst h1 h2 h3
      refine ⟨fun x hx => hx, sameGraph_refl s,
             fun x hx hnx => absurd hx hnx, fun _ x => ?_⟩
      rw [countInit_nil, if_neg (fun hc => hc.2 hc.1)]
    | cons d rest ihrest =>
      intro s r s' tr h
      unfold loadList at h
      split at h
      · obtain ⟨hm1, hg1, hn1, hok1⟩ := ihrest s r s' tr h
        refine ⟨hm1, hg1, ?_, hok1⟩
        intro x hx hnx
        obtain ⟨hsome, e, he, her⟩ := hn1 x hx hnx
        exact ⟨hsome, e, List.mem_cons_of_mem d he, her⟩
      · cases hsub : loadModule (fuel+1) d s with
        | mk rc restp =>
          cases restp with
          | mk s1 tr1 =>
            rw [hsub] at h
            dsimp only at h
            obtain ⟨hm1, hg1, hn1, hok1⟩ := stepL d s rc s1 tr1 hsub
            cases rc with
            | error e =>
              dsimp only at h
              injection h with h1 h2
              injection h2 with h2 h3
              subst h1 h2 h3
              refine ⟨hm1, hg1, ?_, fun hm => by simp at hm⟩
              intro x hx hnx
              obtain ⟨hsome, hr⟩ := hn1 x hx hnx
              exact ⟨hsome, d, List.mem_cons_self d rest, hr⟩
            | ok mloaded =>
              dsimp only at h
              cases hrec : loadList (fuel+1) rest s1 with
              | mk r2 restp2 =>
                cases restp2 with
                | mk s2 tr2 =>
                  rw [hrec] at h
                  dsimp only at h
                  replace h := h.symm
                  injection h with h1 h2
                  injection h2 with h2 h3
                  subst h1
                  subst h2
                  subst h3
                  obtain ⟨hm2, hg2, hn2, hok2⟩ := ihrest s1 r s' tr2 hrec
                  have hchar1 := hok1 mloaded rfl
                  refine ⟨fun x hx => hm2 x (hm1 x hx),
                          sameGraph_trans hg1 hg2, ?_, ?_⟩
                  · intro x hx hnx
                    by_cases hx1 : x ∈ s1.loadedModules
                    · obtain ⟨hsome, hr⟩ := hn1 x hx1 hnx
                      exact ⟨isSome_of_sameGraph hg2 x hsome,
                             d, List.mem_cons_self d rest, hr⟩
                    · obtain ⟨hsome, e, he, her⟩ := hn2 x hx hx1
                      exact ⟨hsome, e, List.mem_cons_of_mem d he,
                             reach_of_sameGraph (sameGraph_symm hg1) her⟩
                  · intro hok x
                    rw [countInit_append, hchar1 x, hok2 hok x]
                    by_cases hx2 : x ∈ s'.loadedModules
                    · by_cases hx0 : x ∈ s.loadedModules
                      · rw [if_neg (fun hc => hc.2 hx0),
                            if_neg (fun hc => hc.2 (hm1 x hx0)),
                            if_neg (fun hc => hc.2 hx0)]
                      · by_cases hx1 : x ∈ s1.loadedModules
                        · rw [if_pos ⟨hx1, hx0⟩,
                              if_neg (fun hc => hc.2 hx1),
                              if_pos ⟨hx2, hx0⟩]
                        · rw [if_neg (fun hc => hx1 hc.1),
                              if_pos ⟨hx2, hx1⟩, if_pos ⟨hx2, hx0⟩]
                    · have hx1 : x ∉ s1.loadedModules :=
                        fun hc => hx2 (hm2 x hc)
                      rw [if_neg (fun hc => hx1 hc.1),
                          if_neg (fun hc => hx2 hc.1),
                          if_neg (fun hc => hx2 hc.1)]

end ModuleSystem

namespace ModuleSystem

/-- A successful load leaves the returned descriptor in the registry and the
id in the loaded set. -/
theorem loadModule_ok_post (fuel : Nat) (id : String) (s s1 : Sys)
    (m : Module) (tr : List Ev)
    (h : loadModule fuel id s = (.ok m, s1, tr)) :
    mapGet id s1.modules = some m ∧ id ∈ s1.loadedModules := by
  cases fuel with
  | zero =>
    rw [show loadModule 0 id s = (.error .fuel, s, []) by
          simp [loadModule]] at h
    injection h with h1 h2
    exact absurd h1 (by simp)
  | succ fuel =>
    unfold loadModule at h
    cases hg : mapGet id s.modules with
    | none =>
      rw [hg] at h
      dsimp only at h
      injection h with h1 h2
      exact absurd h1 (by simp)
    | some m0 =>
      rw [hg] at h
      dsimp only at h
      split at h
      · rename_i hld
        injection h with h1 h2
        injection h2 with h2 h3
        injection h1 with h1
        subst h1 h2
        exact ⟨hg, List.elem_iff.mp hld⟩
      · cases hsub : checkDependencies fuel id s with
        | mk rc rest =>
          cases rest with
          | mk sd trd =>
            rw [hsub] at h
            cases rc with
            | error e =>
              dsimp only at h
              injection h with h1 h2
              exact absurd h1 (by simp)
            | ok u =>
              dsimp only at h
              split at h
              · injection h with h1 h2
                injection h2 with h2 h3
                injection h1 with h1
                subst h1 h2
                constructor
                · rw [mapGet_mapSet_self]
                · exact mem_setAdd.mpr (Or.inr rfl)
              · injection h with h1 h2
                exact absurd h1 (by simp)

/-- C3: `load` is idempotent.  If a first `loadModule id` from a state where
`id` is not yet loaded succeeds, its trace invokes `id`'s `init` hook
exactly once, and a second sequential `loadModule id` returns the very same
module immediately: same state, empty trace — no hook invocation, no event,
no status change anywhere. -/
theorem load_idempotent (fuel fuel2 : Nat) (id : String) (s s1 : Sys)
    (m : Module) (tr1 : List Ev)
    (hnl : id ∉ s.loadedModules)
    (h : loadModule fuel id s = (.ok m, s1, tr1)) :
    countInit id tr1 = 1
    ∧ loadModule (fuel2+1) id s1 = (.ok m, s1, []) := by
  obtain ⟨hmod, hld⟩ := loadModule_ok_post fuel id s s1 m tr1 h
  obtain ⟨-, -, -, hchar⟩ := (load_meta fuel).1 id s (.ok m) s1 tr1 h
  constructor
  · rw [hchar m rfl id, if_pos ⟨hld, hnl⟩]
  · unfold loadModule
    rw [hmod]
    dsimp only
    rw [if_pos (List.elem_iff.mpr hld)]

/-- Fixture: `"a"` registered with no dependencies, nothing loaded. -/
def sRegA : Sys :=
  ⟨[("a", { mA with state := "registered" })], [("a", "registered")], []⟩

/-- C3 witness: loading the freshly registered `"a"` and then loading it
again. -/
theorem load_idempotent_witness :
    countInit "a" [Ev.initHook "a", Ev.moduleLoaded "a"] = 1
    ∧ loadModule 3 "a" sLoadedA = (.ok mA, sLoadedA, []) :=
  load_idempotent 2 2 "a" sRegA sLoadedA mA
    [Ev.initHook "a", Ev.moduleLoaded "a"] (by decide)
    (by simp [loadModule, checkDependencies, checkCircular, checkCircularList,
              getDependencyOrder, visit, visitList, loadList, sRegA,
              sLoadedA, mA, mapGet, mapSet, setAdd, setDelete])

/-! ## C9: loaded ⊆ registered, preserved by all operations -/

theorem inv_register (now : Nat) (id : String) (cfg : ModuleConfig) (s : Sys)
    (h : Inv s) : Inv (registerModule now id cfg s).2 := by
  intro x hx
  exact mapGet_isSome_mapSet x id _ s.modules (h x hx)

theorem inv_load (fuel : Nat) (id : String) (s : Sys) (h : Inv s) :
    Inv (loadModule fuel id s).2.1 := by
  obtain ⟨hm, hg, hn, -⟩ :=
    (load_meta fuel).1 id s (loadModule fuel id s).1
      (loadModule fuel id s).2.1 (loadModule fuel id s).2.2 rfl
  intro x hx
  by_cases hx0 : x ∈ s.loadedModules
  · exact isSome_of_sameGraph hg x (h x hx0)
  · exact (hn x hx hx0).1

theorem unload_facts (id : String) (s : Sys) (r : Except Err Unit) (s' : Sys)
    (tr : List Ev) (h : unloadModule id s = (r, s', tr)) :
    (∀ x, (mapGet x s.modules).isSome → (mapGet x s'.modules).isSome)
    ∧ (∀ x ∈ s'.loadedModules, x ∈ s.loadedModules)
    ∧ (r = .ok () → id ∉ s'.loadedModules) := by
  unfold unloadModule at h
  cases hg : mapGet id s.modules with
  | none =>
    rw [hg] at h
    dsimp only at h
    injection h with h1 h2
    injection h2 with h2 h3
    subst h1 h2 h3
    exact ⟨fun x hx => hx, fun x hx => hx, fun hr => by simp at hr⟩
  | some m =>
    rw [hg] at h
    dsimp only at h
    split at h
    · rename_i hnl
      injection h with h1 h2
      injection h2 with h2 h3
      subst h1 h2 h3
      refine ⟨fun x hx => hx, fun x hx => hx, fun _ hmem => ?_⟩
      exact hnl (List.elem_iff.mpr hmem)
    · split at h
      · split at h
        · injection h with h1 h2
          injection h2 with h2 h3
          subst h1 h2 h3
          refine ⟨fun x hx => mapGet_isSome_mapSet x id _ s.modules hx,
                  fun x hx => (mem_setDelete.mp hx).1, fun _ hmem => ?_⟩
          exact (mem_setDelete.mp hmem).2 rfl
        · injection h with h1 h2
          injection h2 with h2 h3
          subst h1 h2 h3
          exact ⟨fun x hx => hx, fun x hx => hx, fun hr => by simp at hr⟩
      · injection h with h1 h2
        injection h2 with h2 h3
        subst h1 h2 h3
        exact ⟨fun x hx => hx, fun x hx => hx, fun hr => by simp at hr⟩

theorem inv_unload (id : String) (s : Sys) (h : Inv s) :
    Inv (unloadModule id s).2.1 := by
  obtain ⟨hsome, hsub, -⟩ :=
    unload_facts id s (unloadModule id s).1 (unloadModule id s).2.1
      (unloadModule id s).2.2 rfl
  intro x hx
  exact hsome x (h x (hsub x hx))

theorem inv_uninstall (id : String) (s : Sys) (h : Inv s) :
    Inv (handleModuleUninstall id s).2.1 := by
  unfold handleModuleUninstall
  cases hu : unloadModule id s with
  | mk r rest =>
    cases rest with
    | mk s' tr =>
      obtain ⟨hsome, hsub, hok⟩ := unload_facts id s r s' tr hu
      cases r with
      | error e =>
        dsimp only
        intro x hx
        exact hsome x (h x (hsub x hx))
      | ok u =>
        dsimp only
        intro x hx
        have hxid : x ≠ id := by
          intro e
          subst e
          exact hok rfl hx
        rw [mapGet_mapDelete_ne x id s'.modules hxid]
        exact hsome x (h x (hsub x hx))

theorem inv_reload (fuel now : Nat) (id : String) (cfg : ModuleConfig)
    (s : Sys) (h : Inv s) : Inv (handleModuleReload fuel now id cfg s).2.1 := by
  unfold handleModuleReload
  dsimp only
  by_cases hw : s.loadedModules.contains id = true
  · rw [if_pos hw]
    cases hu : unloadModule id s with
    | mk r rest =>
      cases rest with
      | mk s' tr =>
        obtain ⟨hsome, hsub, -⟩ := unload_facts id s r s' tr hu
        have hInv' : Inv s' := fun x hx => hsome x (h x (hsub x hx))
        cases r with
        | error e => exact hInv'
        | ok u =>
          dsimp only
          rw [if_pos hw]
          have hInv2 := inv_register now id cfg s' hInv'
          have := inv_load fuel id (registerModule now id cfg s').2 hInv2
          cases hl : loadModule fuel id (registerModule now id cfg s').2 with
          | mk r2 rest2 =>
            cases rest2 with
            | mk s3 tr3 =>
              rw [hl] at this
              cases r2 with
              | error e2 => exact this
              | ok m2 => exact this
  · rw [if_neg hw]
    dsimp only
    rw [if_neg hw]
    exact inv_register now id cfg s h

/-- C9: every id in the loaded set is a key of the module registry; the
invariant is preserved (whatever the outcome) by `registerModule`,
`loadModule`, `unloadModule`, `handleModuleUninstall`, `handleModuleReload`
and `restartSystem`. -/
theorem loaded_subset_registered_invariant (now fuel : Nat) (id : String)
    (cfg : ModuleConfig) (s : Sys) (hInv : Inv s) :
    Inv (registerModule now id cfg s).2
    ∧ Inv (loadModule fuel id s).2.1
    ∧ Inv (unloadModule id s).2.1
    ∧ Inv (handleModuleUninstall id s).2.1
    ∧ Inv (handleModuleReload fuel now id cfg s).2.1
    ∧ Inv (restartSystem s).1 :=
  ⟨inv_register now id cfg s hInv, inv_load fuel id s hInv,
   inv_unload id s hInv, inv_uninstall id s hInv,
   inv_reload fuel now id cfg s hInv,
   fun x hx => absurd hx (List.not_mem_nil x)⟩

/-- C9 witness: the invariant instantiated on a concrete mixed state. -/
theorem loaded_subset_registered_invariant_witness :
    Inv sC4fix ∧ Inv (restartSystem sC4fix).1 ∧ Inv (unloadModule "a" sC4fix).2.1 :=
  ⟨by decide,
   (loaded_subset_registered_invariant 0 1 "a" (cfgDeps []) sC4fix
     (by decide)).2.2.2.2.2,
   (loaded_subset_registered_invariant 0 1 "a" (cfgDeps []) sC4fix
     (by decide)).2.2.1⟩

end ModuleSystem

namespace ModuleSystem

/-! ## C2: the DFS postorder is a topological order without duplicates -/

theorem append_singleton_split {α : Type} (o : List α) (dd : α)
    (l1 : List α) (a : α) (l2 : List α)
    (h : o ++ [dd] = l1 ++ a :: l2) :
    (l1 = o ∧ a = dd ∧ l2 = [])
    ∨ (∃ l2', l2 = l2' ++ [dd] ∧ o = l1 ++ a :: l2') := by
  rcases List.eq_nil_or_concat l2 with rfl | ⟨l2', x, rfl⟩
  · left
    obtain ⟨h1, h2⟩ := List.append_inj' h rfl
    injection h2 with h2
    exact ⟨h1.symm, h2.symm, rfl⟩
  · right
    have h' : o ++ [dd] = (l1 ++ a :: l2') ++ [x] := by
      rw [h]
      simp
    obtain ⟨h1, h2⟩ := List.append_inj' h' rfl
    injection h2 with h2
    exact ⟨l2', by rw [h2, List.concat_eq_append], h1⟩

theorem topoBefore_append (g : List (String × Module)) (o : List String)
    (dd : String) (h : topoBefore g o)
    (hd : ∀ b ∈ depsOf g dd, b ∈ o) : topoBefore g (o ++ [dd]) := by
  intro l1 a l2 he b hb
  rcases append_singleton_split o dd l1 a l2 he with ⟨rfl, rfl, rfl⟩ | ⟨l2', -, ho⟩
  · exact hd b hb
  · exact h l1 a l2' ho b hb

/-- DFS state invariant: the order is duplicate-free, `visited` is exactly
the set of emitted ids, and the order is topologically sorted. -/
def DfsGood (g : List (String × Module)) (st : DfsState) : Prop :=
  st.order.Nodup ∧ (∀ x, x ∈ st.visited ↔ x ∈ st.order)
  ∧ topoBefore g st.order

theorem dfs_good_step (g : List (String × Module)) :
    ∀ fuel,
      (∀ d st st', visit g fuel d st = .ok st' → DfsGood g st →
        DfsGood g st' ∧ st'.visiting = st.visiting
        ∧ (∃ t, st'.order = st.order ++ t) ∧ d ∈ st'.visited
        ∧ (∀ x ∈ st'.visited, x ∈ st.visited ∨ x ∉ st.visiting))
      ∧ (∀ ds st st', visitList g fuel ds st = .ok st' → DfsGood g st →
          DfsGood g st' ∧ st'.visiting = st.visiting
          ∧ (∃ t, st'.order = st.order ++ t) ∧ (∀ d ∈ ds, d ∈ st'.visited)
          ∧ (∀ x ∈ st'.visited, x ∈ st.visited ∨ x ∉ st.visiting)) := by
  intro fuel
  induction fuel with
  | zero =>
    constructor
    · intro d st st' h
      rw [show visit g 0 d st = .error .fuel by simp [visit]] at h
      exact absurd h (by simp)
    · intro ds st st' h hgood
      cases ds with
      | nil =>
        rw [show visitList g 0 [] st = .ok st by simp [visitList]] at h
        injection h with h
        subst h
        exact ⟨hgood, rfl, ⟨[], by simp⟩, by simp, fun x hx => Or.inl hx⟩
      | cons d rest =>
        unfold visitList at h
        rw [show visit g 0 d st = .error .fuel by simp [visit]] at h
        exact absurd h (by simp)
  | succ fuel ih =>
    have ihL := ih.2
    have stepV : ∀ d st st', visit g (fuel+1) d st = .ok st' →
        DfsGood g st →
        DfsGood g st' ∧ st'.visiting = st.visiting
        ∧ (∃ t, st'.order = st.order ++ t) ∧ d ∈ st'.visited
        ∧ (∀ x ∈ st'.visited, x ∈ st.visited ∨ x ∉ st.visiting) := by
      intro d st st' h hgood
      unfold visit at h
      split at h
      · exact absurd h (by simp)
      · rename_i hdvng
        have hdvn : d ∉ st.visiting :=
          fun hmem => hdvng (List.elem_iff.mpr hmem)
        split at h
        · rename_i hdvg
          injection h with h
          subst h
          exact ⟨hgood, rfl, ⟨[], by simp⟩,
                 List.elem_iff.mp (by simpa using hdvg),
                 fun x hx => Or.inl hx⟩
        · rename_i hdvg
          have hdv : d ∉ st.visited :=
            fun hmem => hdvg (List.elem_iff.mpr hmem)
          have hst1visiting : setAdd d st.visiting = st.visiting ++ [d] :=
            setAdd_of_not_contains (by simpa using hdvn)
          cases hg : mapGet d g with
          | some m =>
            rw [hg] at h
            dsimp only at h
            cases hsub : visitList g fuel m.dependencies
                { st with visiting := setAdd d st.visiting } with
            | error e => rw [hsub] at h; exact absurd h (by simp)
            | ok st2 =>
              rw [hsub] at h
              injection h with h
              subst h
              obtain ⟨hgood2, hvng2, ⟨t, hord2⟩, hdeps2, hadd2⟩ :=
                ihL m.dependencies _ _ hsub hgood
              dsimp only at hvng2 hord2 hadd2
              have hd2 : d ∉ st2.visited := by
                intro hmem
                rcases hadd2 d hmem with hin | hnin
                · exact hdv hin
                · rw [hst1visiting] at hnin
                  exact hnin (List.mem_append.mpr (Or.inr (by simp)))
              have hd2o : d ∉ st2.order :=
                fun ho => hd2 ((hgood2.2.1 d).mpr ho)
              have hdepso : ∀ b ∈ depsOf g d, b ∈ st2.order := by
                intro b hb
                unfold depsOf at hb
                rw [hg] at hb
                exact (hgood2.2.1 b).mp (hdeps2 b hb)
              refine ⟨⟨?_, ?_, ?_⟩, ?_, ⟨t ++ [d], by rw [hord2]; simp⟩,
                      mem_setAdd.mpr (Or.inr rfl), ?_⟩
              · rw [List.nodup_append]
                refine ⟨hgood2.1, List.nodup_singleton d, ?_⟩
                intro a ha hb
                rw [List.mem_singleton] at hb
                subst hb
                exact hd2o ha
              · intro x
                rw [mem_setAdd, List.mem_append, List.mem_singleton,
                    hgood2.2.1 x]
              · exact topoBefore_append g st2.order d hgood2.2.2 hdepso
              · show setDelete d st2.visiting = st.visiting
                rw [hvng2, hst1visiting, setDelete_append_self hdvn]
              · intro x hx
                rcases mem_setAdd.mp hx with hx2 | rfl
                · rcases hadd2 x hx2 with hin | hnin
                  · exact Or.inl hin
                  · rw [hst1visiting] at hnin
                    exact Or.inr (fun hmem =>
                      hnin (List.mem_append.mpr (Or.inl hmem)))
                · exact Or.inr hdvn
          | none =>
            rw [hg] at h
            dsimp only at h
            injection h with h
            subst h
            have hdo : d ∉ st.order := fun ho => hdv ((hgood.2.1 d).mpr ho)
            refine ⟨⟨?_, ?_, ?_⟩, ?_, ⟨[d], rfl⟩,
                    mem_setAdd.mpr (Or.inr rfl), ?_⟩
            · rw [List.nodup_append]
              refine ⟨hgood.1, List.nodup_singleton d, ?_⟩
              intro a ha hb
              rw [List.mem_singleton] at hb
              subst hb
              exact hdo ha
            · intro x
              rw [mem_setAdd, List.mem_append, List.mem_singleton,
                  hgood.2.1 x]
            · refine topoBefore_append g st.order d hgood.2.2 ?_
              intro b hb
              unfold depsOf at hb
              rw [hg] at hb
              exact absurd hb (List.not_mem_nil b)
            · show setDelete d (setAdd d st.visiting) = st.visiting
              rw [hst1visiting, setDelete_append_self hdvn]
            · intro x hx
              rcases mem_setAdd.mp hx with hx2 | rfl
              · exact Or.inl hx2
              · exact Or.inr hdvn
    refine ⟨stepV, ?_⟩
    intro ds
    induction ds with
    | nil =>
      intro st st' h hgood
      rw [show visitList g (fuel+1) [] st = .ok st by simp [visitList]] at h
      injection h with h
      subst h
      exact ⟨hgood, rfl, ⟨[], by simp⟩, by simp, fun x hx => Or.inl hx⟩
    | cons d rest ihrest =>
      intro st st' h hgood
      unfold visitList at h
      cases hsub : visit g (fuel+1) d st with
      | error e => rw [hsub] at h; exact absurd h (by simp)
      | ok stm =>
        rw [hsub] at h
        obtain ⟨hgood1, hvg1, ⟨t1, hord1⟩, hd1, hadd1⟩ :=
          stepV d st stm hsub hgood
        obtain ⟨hgood2, hvg2, ⟨t2, hord2⟩, hrest2, hadd2⟩ :=
          ihrest stm st' h hgood1
        refine ⟨hgood2, hvg2.trans hvg1,
                ⟨t1 ++ t2, by rw [hord2, hord1]; simp⟩, ?_, ?_⟩
        · intro d' hd'
          rcases List.mem_cons.mp hd' with rfl | hd'
          · have : d' ∈ stm.order := (hgood1.2.1 d').mp hd1
            have : d' ∈ st'.order := by
              rw [hord2]
              exact List.mem_append.mpr (Or.inl this)
            exact (hgood2.2.1 d').mpr this
          · exact hrest2 d' hd'
        · intro x hx
          rcases hadd2 x hx with hin | hnin
          · rcases hadd1 x hin with hin2 | hnin2
            · exact Or.inl hin2
            · exact Or.inr hnin2
          · rw [hvg1] at hnin
            exact Or.inr hnin

/-- C2 support: a successful `getDependencyOrder` run yields a
duplicate-free topologically sorted list covering the requested roots. -/
theorem getDependencyOrder_topological (g : List (String × Module))
    (fuel : Nat) (ds order : List String)
    (h : getDependencyOrder g fuel ds = .ok order) :
    order.Nodup ∧ topoBefore g order ∧ ∀ d ∈ ds, d ∈ order := by
  unfold getDependencyOrder at h
  cases hsub : visitList g fuel ds ⟨[], [], []⟩ with
  | error e => rw [hsub] at h; exact absurd h (by simp)
  | ok st =>
    rw [hsub] at h
    injection h with h
    subst h
    have hgood0 : DfsGood g ⟨[], [], []⟩ := by
      refine ⟨List.nodup_nil, fun x => by simp, ?_⟩
      intro l1 a l2 he
      exact absurd he.symm (List.append_ne_nil_of_right_ne_nil l1
        (List.cons_ne_nil a l2))
    obtain ⟨hgood, -, -, hcover, -⟩ :=
      (dfs_good_step g fuel).2 ds _ _ hsub hgood0
    exact ⟨hgood.1, hgood.2.2,
           fun d hd => (hgood.2.1 d).mp (hcover d hd)⟩

end ModuleSystem

namespace ModuleSystem

/-! ## Totality of the DFS on acyclic graphs -/

theorem mapGet_isSome_mem_keys (k : String) (g : List (String × α))
    (h : (mapGet k g).isSome) : k ∈ g.map (·.1) := by
  induction g with
  | nil => simp [mapGet] at h
  | cons p t ih =>
    by_cases hp : p.1 = k
    · exact List.mem_map.mpr ⟨p, List.mem_cons_self p t, hp⟩
    · rw [show mapGet k (p :: t) = mapGet k t by simp [mapGet, hp]] at h
      exact List.mem_cons_of_mem _ (ih h)

theorem filter_length_strict {α : Type} (l : List α) (p q : α → Bool)
    (himp : ∀ a, q a = true → p a = true) (a0 : α) (h0 : a0 ∈ l)
    (hp : p a0 = true) (hq : q a0 = false) :
    (l.filter q).length < (l.filter p).length := by
  induction l with
  | nil => exact absurd h0 (List.not_mem_nil a0)
  | cons x t ih =>
    have hsub : (t.filter q).length ≤ (t.filter p).length :=
      (List.monotone_filter_right t himp).length_le
    rcases List.mem_cons.mp h0 with rfl | h0t
    · rw [List.filter_cons_of_neg (by simp [hq]),
          List.filter_cons_of_pos hp]
      exact Nat.lt_succ_of_le hsub
    · cases hqx : q x with
      | true =>
        rw [List.filter_cons_of_pos hqx,
            List.filter_cons_of_pos (himp x hqx)]
        exact Nat.succ_lt_succ (ih h0t)
      | false =>
        rw [List.filter_cons_of_neg (by simp [hqx])]
        cases hpx : p x with
        | true =>
          rw [List.filter_cons_of_pos hpx]
          exact Nat.lt_succ_of_lt (ih h0t)
        | false =>
          rw [List.filter_cons_of_neg (by simp [hpx])]
          exact ih h0t

theorem chain'_reflTransGen_getLast {α : Type} (r : α → α → Prop) :
    ∀ l : List α, List.Chain' r l → ∀ x ∈ l, ∀ y, l.getLast? = some y →
      Relation.ReflTransGen r x y := by
  intro l
  induction l with
  | nil => intro _ x hx; exact absurd hx (List.not_mem_nil x)
  | cons a t ih =>
    intro hch x hx y hy
    cases t with
    | nil =>
      have hxa : x = a := by simpa using hx
      have hya : a = y := by simpa using hy
      rw [hxa, ← hya]
    | cons b t' =>
      have hab : r a b := (List.chain'_cons.mp hch).1
      have hch' : List.Chain' r (b :: t') := (List.chain'_cons.mp hch).2
      have hy' : (b :: t').getLast? = some y := by
        rwa [List.getLast?_cons_cons] at hy
      rcases List.mem_cons.mp hx with rfl | hxt
      · exact Relation.ReflTransGen.head hab
          (ih hch' b (List.mem_cons_self b t') y hy')
      · exact ih hch' x hxt y hy'

/-- The DFS termination measure: registered ids not yet touched. -/
def dfsMeasure (g : List (String × Module)) (st : DfsState) : Nat :=
  ((g.map (·.1)).filter
    (fun k => !(st.visited.contains k || st.visiting.contains k))).length

theorem dfsMeasure_mono (g : List (String × Module)) (st st' : DfsState)
    (hv : ∀ x, x ∈ st.visited → x ∈ st'.visited)
    (hg : st'.visiting = st.visiting) :
    dfsMeasure g st' ≤ dfsMeasure g st := by
  unfold dfsMeasure
  refine (List.monotone_filter_right _ ?_).length_le
  intro k hk
  simp only [Bool.not_eq_true', Bool.or_eq_false_iff] at hk ⊢
  rw [hg] at hk
  refine ⟨?_, hk.2⟩
  by_cases hm : k ∈ st.visited
  · have hc : st'.visited.contains k = true := by simpa using hv k hm
    rw [hc] at hk
    exact absurd hk.1 (by simp)
  · simpa using hm

theorem dfsMeasure_push (g : List (String × Module)) (st : DfsState)
    (d : String) (hreg : (mapGet d g).isSome)
    (hnv : d ∉ st.visited) (hng : d ∉ st.visiting) :
    dfsMeasure g { st with visiting := setAdd d st.visiting }
      < dfsMeasure g st := by
  unfold dfsMeasure
  refine filter_length_strict _ _ _ ?_ d (mapGet_isSome_mem_keys d g hreg)
    ?_ ?_
  · intro a ha
    simp only [Bool.not_eq_true', Bool.or_eq_false_iff] at ha ⊢
    refine ⟨ha.1, ?_⟩
    have : a ∉ setAdd d st.visiting := by simpa using ha.2
    have : a ∉ st.visiting := fun hm => this (mem_setAdd.mpr (Or.inl hm))
    simpa using this
  · simp only [Bool.not_eq_true', Bool.or_eq_false_iff]
    constructor
    · simpa using hnv
    · simpa using hng
  · show (!(st.visited.contains d || (setAdd d st.visiting).contains d))
        = false
    have hc : (setAdd d st.visiting).contains d = true :=
      List.elem_iff.mpr (mem_setAdd.mpr (Or.inr rfl))
    rw [hc]
    simp

end ModuleSystem

namespace ModuleSystem

theorem visit_fuel_mono (g : List (String × Module)) :
    ∀ fuel,
      (∀ d st st', visit g fuel d st = .ok st' →
        visit g (fuel+1) d st = .ok st')
      ∧ (∀ ds st st', visitList g fuel ds st = .ok st' →
          visitList g (fuel+1) ds st = .ok st') := by
  intro fuel
  induction fuel with
  | zero =>
    constructor
    · intro d st st' h
      rw [show visit g 0 d st = .error .fuel by simp [visit]] at h
      exact absurd h (by simp)
    · intro ds st st' h
      cases ds with
      | nil =>
        rw [show visitList g 0 [] st = .ok st by simp [visitList]] at h
        rw [show visitList g 1 [] st = .ok st by simp [visitList]]
        exact h
      | cons d rest =>
        unfold visitList at h
        rw [show visit g 0 d st = .error .fuel by simp [visit]] at h
        exact absurd h (by simp)
  | succ fuel ih =>
    have ihL := ih.2
    have stepV : ∀ d st st', visit g (fuel+1) d st = .ok st' →
        visit g (fuel+2) d st = .ok st' := by
      intro d st st' h
      unfold visit at h ⊢
      split at h
      · exact absurd h (by simp)
      · rename_i hng
        rw [if_neg hng]
        split at h
        · rename_i hv
          rw [if_pos hv]
          exact h
        · rename_i hv
          rw [if_neg hv]
          cases hg : mapGet d g with
          | some m =>
            rw [hg] at h
            dsimp only at h ⊢
            cases hsub : visitList g fuel m.dependencies
                { st with visiting := setAdd d st.visiting } with
            | error e => rw [hsub] at h; exact absurd h (by simp)
            | ok st2 =>
              rw [hsub] at h
              rw [ihL m.dependencies _ _ hsub]
              exact h
          | none =>
            rw [hg] at h
            dsimp only at h ⊢
            exact h
    refine ⟨stepV, ?_⟩
    intro ds
    induction ds with
    | nil =>
      intro st st' h
      rw [show visitList g (fuel+1) [] st = .ok st by simp [visitList]] at h
      rw [show visitList g (fuel+2) [] st = .ok st by simp [visitList]]
      exact h
    | cons d rest ihrest =>
      intro st st' h
      unfold visitList at h ⊢
      cases hsub : visit g (fuel+1) d st with
      | error e => rw [hsub] at h; exact absurd h (by simp)
      | ok stm =>
        rw [hsub] at h
        rw [stepV d st stm hsub]
        exact ihrest stm st' h

theorem visit_fuel_le (g : List (String × Module)) (f f' : Nat) (hle : f ≤ f') :
    (∀ d st st', visit g f d st = .ok st' → visit g f' d st = .ok st')
    ∧ (∀ ds st st', visitList g f ds st = .ok st' →
        visitList g f' ds st = .ok st') := by
  induction f' with
  | zero =>
    have : f = 0 := Nat.le_zero.mp hle
    subst this
    exact ⟨fun d st st' h => h, fun ds st st' h => h⟩
  | succ f' ih =>
    rcases Nat.lt_or_ge f (f'+1) with hlt | hge
    · have hle' : f ≤ f' := Nat.lt_succ_iff.mp hlt
      obtain ⟨h1, h2⟩ := ih hle'
      exact ⟨fun d st st' h => (visit_fuel_mono g f').1 d st st' (h1 d st st' h),
             fun ds st st' h => (visit_fuel_mono g f').2 ds st st' (h2 ds st st' h)⟩
    · have : f = f' + 1 := Nat.le_antisymm hle hge
      subst this
      exact ⟨fun d st st' h => h, fun ds st st' h => h⟩

/-- The DFS of `getDependencyOrder` terminates successfully (with enough
fuel) on every acyclic graph: the run cannot hit the cycle error, and the
recursion depth is bounded by the number of registered modules. -/
theorem dfs_total (g : List (String × Module)) (hA : AcyclicGraph g) :
    ∀ n,
      (∀ d st, List.Chain' (fun x y => y ∈ depsOf g x) st.visiting →
        (∀ y, st.visiting.getLast? = some y → d ∈ depsOf g y) →
        DfsGood g st → dfsMeasure g st ≤ n →
        ∃ fuel st', visit g fuel d st = .ok st')
      ∧ (∀ ds st, List.Chain' (fun x y => y ∈ depsOf g x) st.visiting →
          (∀ d ∈ ds, ∀ y, st.visiting.getLast? = some y → d ∈ depsOf g y) →
          DfsGood g st → dfsMeasure g st ≤ n →
          ∃ fuel st', visitList g fuel ds st = .ok st') := by
  intro n
  induction n using Nat.strong_induction_on with
  | _ n ih =>
    have stepV : ∀ d st, List.Chain' (fun x y => y ∈ depsOf g x) st.visiting →
        (∀ y, st.visiting.getLast? = some y → d ∈ depsOf g y) →
        DfsGood g st → dfsMeasure g st ≤ n →
        ∃ fuel st', visit g fuel d st = .ok st' := by
      intro d st hchain hlast hgood hmeas
      have hdn : d ∉ st.visiting := by
        intro hmem
        have hne : st.visiting ≠ [] := List.ne_nil_of_mem hmem
        obtain ⟨y, hy⟩ := Option.isSome_iff_exists.mp
          (List.getLast?_isSome.mpr hne)
        have hry : Relation.ReflTransGen (fun x y => y ∈ depsOf g x) d y :=
          chain'_reflTransGen_getLast _ st.visiting hchain d hmem y hy
        have hyd : d ∈ depsOf g y := hlast y hy
        exact hA d (Relation.TransGen.tail' hry hyd)
      have hdnc : ¬ st.visiting.contains d = true := by simpa using hdn
      by_cases hdv : d ∈ st.visited
      · refine ⟨1, st, ?_⟩
        unfold visit
        rw [if_neg hdnc, if_pos (List.elem_iff.mpr hdv)]
      · have hdvc : ¬ st.visited.contains d = true := by simpa using hdv
        cases hg : mapGet d g with
        | none =>
          refine ⟨1, ⟨setAdd d st.visited, setDelete d (setAdd d st.visiting),
                      st.order ++ [d]⟩, ?_⟩
          unfold visit
          rw [if_neg hdnc, if_neg hdvc, hg]
        | some m =>
          have hmeas1 : dfsMeasure g { st with visiting := setAdd d st.visiting }
              < dfsMeasure g st :=
            dfsMeasure_push g st d (by rw [hg]; rfl) hdv hdn
          have hmlt : dfsMeasure g { st with visiting := setAdd d st.visiting }
              < n := Nat.lt_of_lt_of_le hmeas1 hmeas
          have hst1visiting : setAdd d st.visiting = st.visiting ++ [d] :=
            setAdd_of_not_contains (by simpa using hdn)
          have hchain1 : List.Chain'
              (fun x y => y ∈ depsOf g x)
              (setAdd d st.visiting) := by
            rw [hst1visiting]
            rw [List.chain'_append]
            refine ⟨hchain, List.chain'_singleton d, ?_⟩
            intro y hy z hz
            have hzd : d = z := by simpa using hz
            subst hzd
            exact hlast y hy
          have hedges1 : ∀ e ∈ m.dependencies, ∀ y,
              (setAdd d st.visiting).getLast? = some y →
              e ∈ depsOf g y := by
            intro e he y hy
            rw [hst1visiting, List.getLast?_concat] at hy
            injection hy with hy
            subst hy
            unfold depsOf
            rw [hg]
            exact he
          obtain ⟨fuel1, st2, hrun⟩ :=
            (ih _ hmlt).2 m.dependencies
              { st with visiting := setAdd d st.visiting }
              hchain1 hedges1 hgood (Nat.le_refl _)
          refine ⟨fuel1 + 1, ⟨setAdd d st2.visited, setDelete d st2.visiting,
                  st2.order ++ [d]⟩, ?_⟩
          unfold visit
          rw [if_neg hdnc, if_neg hdvc, hg]
          dsimp only
          rw [hrun]
    refine ⟨stepV, ?_⟩
    intro ds
    induction ds with
    | nil =>
      intro st hchain hedges hgood hmeas
      exact ⟨0, st, by simp [visitList]⟩
    | cons d rest ihrest =>
      intro st hchain hedges hgood hmeas
      obtain ⟨f1, stm, h1⟩ := stepV d st hchain
        (fun y hy => hedges d (List.mem_cons_self d rest) y hy) hgood hmeas
      obtain ⟨hgoodm, hvgm, ⟨t, hordm⟩, -, -⟩ :=
        (dfs_good_step g f1).1 d st stm h1 hgood
      have hvism : ∀ x, x ∈ st.visited → x ∈ stm.visited := by
        intro x hx
        have : x ∈ st.order := (hgood.2.1 x).mp hx
        have : x ∈ stm.order := by
          rw [hordm]
          exact List.mem_append.mpr (Or.inl this)
        exact (hgoodm.2.1 x).mpr this
      have hmeasm : dfsMeasure g stm ≤ n :=
        Nat.le_trans (dfsMeasure_mono g st stm hvism hvgm) hmeas
      obtain ⟨f2, st'', h2⟩ := ihrest stm
        (by rw [hvgm]; exact hchain)
        (fun e he y hy => hedges e (List.mem_cons_of_mem d he) y
          (by rwa [hvgm] at hy))
        hgoodm hmeasm
      refine ⟨max f1 f2, st'', ?_⟩
      unfold visitList
      rw [(visit_fuel_le g f1 (max f1 f2) (Nat.le_max_left f1 f2)).1
            d st stm h1]
      exact (visit_fuel_le g f2 (max f1 f2) (Nat.le_max_right f1 f2)).2
        rest stm st'' h2

/-- C2 support: on an acyclic graph, `getDependencyOrder` succeeds with
enough fuel. -/
theorem getDependencyOrder_total (g : List (String × Module))
    (ds : List String) (hA : AcyclicGraph g) :
    ∃ fuel order, getDependencyOrder g fuel ds = .ok order := by
  have hgood0 : DfsGood g ⟨[], [], []⟩ := by
    refine ⟨List.nodup_nil, fun x => by simp, ?_⟩
    intro l1 a l2 he
    exact absurd he.symm (List.append_ne_nil_of_right_ne_nil l1
      (List.cons_ne_nil a l2))
  obtain ⟨fuel, st', h⟩ :=
    (dfs_total g hA (dfsMeasure g ⟨[], [], []⟩)).2 ds ⟨[], [], []⟩
      List.chain'_nil
      (fun d hd y hy => by simp at hy)
      hgood0 (Nat.le_refl _)
  refine ⟨fuel, st'.order, ?_⟩
  unfold getDependencyOrder
  rw [h]

end ModuleSystem

namespace ModuleSystem

/-- C2: for every acyclic dependency graph and root dependency list, the
load-order DFS yields a sequence: it succeeds with enough fuel on acyclic
graphs (second conjunct), and whenever it yields an order, that order
contains each id at most once, lists every requested root, and places each
dependency strictly before every module of the order that depends on it
(first conjunct — with no acyclicity needed). -/
theorem dependency_order_topological :
    (∀ g fuel ds order, getDependencyOrder g fuel ds = .ok order →
       order.Nodup ∧ topoBefore g order ∧ ∀ d ∈ ds, d ∈ order)
    ∧ ∀ g ds, AcyclicGraph g →
        ∃ fuel order, getDependencyOrder g fuel ds = .ok order :=
  ⟨getDependencyOrder_topological,
   fun g ds hA => getDependencyOrder_total g ds hA⟩

/-- Fixture modules for the spec's Scenario A: `audio` (no deps), `voice`
(`[audio]`), `tts` (`[audio, voice]`). -/
def mAudio : Module :=
  { mA with id := "audio", state := "registered" }

def mVoice : Module :=
  { mA with id := "voice", dependencies := ["audio"], state := "registered" }

def mTts : Module :=
  { mA with id := "tts", dependencies := ["audio", "voice"], state := "registered" }

def gDia : List (String × Module) :=
  [("audio", mAudio), ("voice", mVoice), ("tts", mTts)]

theorem acyclic_two_chain : AcyclicGraph sC6fix.modules := by
  have hchar : ∀ p q : String, q ∈ depsOf sC6fix.modules p →
      p = "b" ∧ q = "a" := by
    intro p q hq
    unfold depsOf at hq
    by_cases hpa : p = "a"
    · subst hpa
      rw [show mapGet "a" sC6fix.modules = some mA by decide] at hq
      dsimp only at hq
      simp [mA] at hq
    · by_cases hpb : p = "b"
      · subst hpb
        rw [show mapGet "b" sC6fix.modules
              = some { mBreg with state := "loaded" } by decide] at hq
        dsimp only at hq
        refine ⟨rfl, by simpa [mBreg] using hq⟩
      · have hpa' : ¬ ("a" = p) := fun e => hpa e.symm
        have hpb' : ¬ ("b" = p) := fun e => hpb e.symm
        have hnone : mapGet p sC6fix.modules = none := by
          simp [sC6fix, mapGet, hpa', hpb']
        rw [hnone] at hq
        exact absurd hq (List.not_mem_nil q)
  have hnoa : depsOf sC6fix.modules "a" = [] := by decide
  intro x hx
  obtain ⟨b, hab, hbx⟩ := Relation.TransGen.tail'_iff.mp hx
  obtain ⟨hb, hx'⟩ := hchar b x hbx
  subst hb hx'
  rcases Relation.ReflTransGen.cases_head hab with heq | ⟨c, hc, -⟩
  · exact absurd heq (by decide)
  · rw [hnoa] at hc
    exact absurd hc (List.not_mem_nil c)

/-- The DFS loop over an empty dependency list leaves the state alone. -/
theorem visitList_nil_eval (g : List (String × Module)) (fuel : Nat)
    (st : DfsState) : visitList g fuel [] st = .ok st := by
  cases fuel <;> simp [visitList]

/-- One successful step of the DFS loop. -/
theorem visitList_cons_ok (g : List (String × Module)) (fuel : Nat)
    (d : String) (ds : List String) (st st' : DfsState)
    (h : visit g fuel d st = .ok st') :
    visitList g fuel (d :: ds) st = visitList g fuel ds st' := by
  simp [visitList, h]

/-- A completed DFS run determines `getDependencyOrder`'s result. -/
theorem getDependencyOrder_run (g : List (String × Module)) (fuel : Nat)
    (ds : List String) (st : DfsState)
    (h : visitList g fuel ds ⟨[], [], []⟩ = .ok st) :
    getDependencyOrder g fuel ds = .ok st.order := by
  simp [getDependencyOrder, h]

/-- Stage evaluation: the first DFS visit of `audio` in the diamond. -/
theorem visit_audio_eval :
    visit gDia 3 "audio" ⟨[], [], []⟩ = .ok ⟨["audio"], [], ["audio"]⟩ := by
  simp [visit, visitList, gDia, mAudio, mVoice, mTts, mA, mapGet, setAdd,
        setDelete]

/-- Stage evaluation: the DFS visit of `voice` after `audio`; the shared
sub-dependency `audio` is rediscovered and skipped. -/
theorem visit_voice_eval :
    visit gDia 3 "voice" ⟨["audio"], [], ["audio"]⟩
      = .ok ⟨["audio", "voice"], [], ["audio", "voice"]⟩ := by
  simp [visit, visitList, gDia, mAudio, mVoice, mTts, mA, mapGet, setAdd,
        setDelete]

/-- Concrete DFS run on the Scenario-A diamond: `tts`'s dependency list
resolves to `[audio, voice]`, deduplicating the shared `audio`
sub-dependency. -/
theorem gDia_order_eval :
    getDependencyOrder gDia 3 ["audio", "voice"]
      = .ok ["audio", "voice"] := by
  have h1 : visitList gDia 3 ["audio", "voice"] ⟨[], [], []⟩
      = .ok ⟨["audio", "voice"], [], ["audio", "voice"]⟩ := by
    rw [visitList_cons_ok gDia 3 "audio" ["voice"] _ _ visit_audio_eval,
        visitList_cons_ok gDia 3 "voice" [] _ _ visit_voice_eval,
        visitList_nil_eval]
  exact getDependencyOrder_run gDia 3 ["audio", "voice"] _ h1

/-- C2 witness: the Scenario-A diamond yields `[audio, voice]` for `tts`'s
dependency list, with the topological guarantees instantiated, and the
acyclic two-module chain is guaranteed to yield an order. -/
theorem dependency_order_topological_witness :
    ((["audio", "voice"] : List String).Nodup
      ∧ topoBefore gDia ["audio", "voice"]
      ∧ "voice" ∈ (["audio", "voice"] : List String))
    ∧ ∃ fuel order, getDependencyOrder sC6fix.modules fuel ["a"]
        = .ok order :=
  ⟨⟨(dependency_order_topological.1 gDia 3 ["audio", "voice"]
      ["audio", "voice"] gDia_order_eval).1,
    (dependency_order_topological.1 gDia 3 ["audio", "voice"]
      ["audio", "voice"] gDia_order_eval).2.1,
    (dependency_order_topological.1 gDia 3 ["audio", "voice"]
      ["audio", "voice"] gDia_order_eval).2.2 "voice" (by decide)⟩,
   dependency_order_topological.2 sC6fix.modules ["a"] acyclic_two_chain⟩

end ModuleSystem
